import Mathlib

/-!
Verification of the CurveCP server implementation (handshake packet pump,
minute-key rotation, domain parsing, receive ring buffer, and the Chicago
congestion-control scheduler) against its natural-language specification.

The Go source is shallowly embedded:
* wire bytes are modelled by the type `B`: a concrete octet is `B.leaf n`,
  while the 16-byte authenticator that NaCl `box`/`secretbox` prepends to a
  ciphertext is modelled symbolically by a `B.node` tree recording the key,
  the nonce and the sealed plaintext (ideal authenticated encryption);
* buffers are `List B`, Go slicing `pb[i:j]` is `gslice pb i j`, and Go's
  `copy` into a sub-slice is `setRange`;
* `time.Duration` / `time.Time` values of the scheduler are `Int`
  nanoseconds, with Go's truncated division (`Int.tdiv`) and 64-bit
  wrap-around where products can exceed the `int64` range;
* randomness (key generation, nonce tails, `rand.Int63n`) is passed in as
  explicit arguments.
-/

/-- Model of a wire byte: either a concrete octet or a symbolic
authenticator produced by the ideal authenticated-encryption model. -/
inductive B where
  | leaf : Nat → B
  | node : B → B → B
deriving DecidableEq

/-- Concrete octet. -/
def byte (n : Nat) : B := B.leaf n

/-- Numeric value of a modelled byte (used where the Go code reads a byte
as an integer, e.g. domain label lengths). Symbolic authenticator bytes
never carry a meaningful numeric value; they read as 0. -/
def bval : B → Nat
  | B.leaf n => n
  | B.node _ _ => 0

/-- Injective packing of a byte list into a single tree, used to build the
symbolic authenticator. -/
def pack (l : List B) : B := l.foldr B.node (B.leaf 0)

theorem pack_inj : ∀ {l₁ l₂ : List B}, pack l₁ = pack l₂ → l₁ = l₂ := by
  intro l₁
  induction l₁ with
  | nil =>
    intro l₂ h
    cases l₂ with
    | nil => rfl
    | cons b t => simp [pack] at h
  | cons a t ih =>
    intro l₂ h
    cases l₂ with
    | nil => simp [pack] at h
    | cons b t₂ =>
      simp only [pack, List.foldr, B.node.injEq] at h
      obtain ⟨h1, h2⟩ := h
      rw [h1, ih h2]

/-- Go slice expression `l[i:j]`. -/
def gslice (l : List B) (i j : Nat) : List B := (l.drop i).take (j - i)

/-- Go `copy(l[i:], src)`: overwrite bytes of `l` starting at offset `i`
with the bytes of `src`, copying `min |src| (|l| - i)` bytes. -/
def setRange (l : List B) (i : Nat) (src : List B) : List B :=
  let n := min src.length (l.length - i)
  l.take i ++ src.take n ++ l.drop (i + n)

theorem setRange_length (l : List B) (i : Nat) (src : List B) :
    (setRange l i src).length = l.length := by
  simp only [setRange, List.length_append, List.length_take, List.length_drop]
  omega

/-- ASCII bytes of a string constant (nonce prefixes, packet magics). -/
def ascii (s : String) : List B := s.data.map (fun c => B.leaf c.toNat)

def helloMagic : List B := ascii ("QvnQ5XlH")
def cookieMagic : List B := ascii ("RL3aNMXK")
def initiateMagic : List B := ascii ("QvnQ5XlI")

def helloNP : List B := ascii ("CurveCP-client-H")
def cookieNP : List B := ascii ("CurveCPK")
def initiateNP : List B := ascii ("CurveCP-client-I")
def vouchNP : List B := ascii ("CurveCPV")
def minuteNP : List B := ascii ("minute-k")

/-! ### Ideal NaCl secretbox / box

`secretboxSeal key nonce pt` produces the 16-byte authenticator (one
symbolic byte recording `(key, nonce, pt)` followed by 15 zero bytes)
followed by the plaintext, so its length is `|pt| + 16` exactly as in
NaCl. `secretboxOpen` succeeds iff the ciphertext was sealed under the
same key and nonce. -/

/-- Symbolic 16-byte authenticator of a sealed box. -/
def macBytes (key nonce pt : List B) : List B :=
  B.node (B.leaf 1) (B.node (B.node (pack key) (pack nonce)) (pack pt)) ::
    List.replicate 15 (byte 0)

def secretboxSeal (key nonce pt : List B) : List B :=
  macBytes key nonce pt ++ pt

def secretboxOpen (key nonce c : List B) : Option (List B) :=
  if c = secretboxSeal key nonce (c.drop 16) then some (c.drop 16) else none

theorem secretboxSeal_length (key nonce pt : List B) :
    (secretboxSeal key nonce pt).length = pt.length + 16 := by
  simp [secretboxSeal, macBytes]

theorem secretboxSeal_drop16 (key nonce pt : List B) :
    (secretboxSeal key nonce pt).drop 16 = pt := by
  simp [secretboxSeal, macBytes, List.drop_append]

theorem secretboxOpen_seal (key nonce pt : List B) :
    secretboxOpen key nonce (secretboxSeal key nonce pt) = some pt := by
  rw [secretboxOpen, secretboxSeal_drop16, if_pos rfl]

theorem secretboxOpen_eq_some {key nonce c pt : List B}
    (h : secretboxOpen key nonce c = some pt) :
    c = secretboxSeal key nonce pt ∧ pt = c.drop 16 := by
  rw [secretboxOpen] at h
  split at h
  · rename_i hc
    cases h
    exact ⟨hc, rfl⟩
  · cases h

/-- Opening a sealed box under any key/nonce: it succeeds only for the
sealing key and nonce. -/
theorem secretboxOpen_seal_inv {k₁ n₁ k₂ n₂ pt pt' : List B}
    (h : secretboxOpen k₂ n₂ (secretboxSeal k₁ n₁ pt) = some pt') :
    k₂ = k₁ ∧ n₂ = n₁ ∧ pt' = pt := by
  obtain ⟨hc, hpt⟩ := secretboxOpen_eq_some h
  rw [secretboxSeal_drop16] at hpt
  subst hpt
  rw [secretboxSeal, secretboxSeal, macBytes, macBytes] at hc
  simp only [List.cons_append, List.cons.injEq, B.node.injEq] at hc
  obtain ⟨⟨-, ⟨hk, hn⟩, -⟩, -⟩ := hc
  exact ⟨(pack_inj hk.symm), (pack_inj hn.symm), rfl⟩

/-! ### Key pairs and Diffie-Hellman shared keys

A key pair is generated from a seed. Public and secret keys are 32-byte
buffers whose first byte is a symbolic tag carrying the seed. `sharedKey`
models `box`'s `beforenm`: for a genuine (public, secret) pair of seeds it
depends only on the unordered seed pair, which gives the NaCl identity
`shared(pk_A, sk_B) = shared(pk_B, sk_A)`. -/

def pkey (s : Nat) : List B :=
  B.node (B.leaf 2) (B.leaf s) :: List.replicate 31 (byte 0)

def skey (s : Nat) : List B :=
  B.node (B.leaf 3) (B.leaf s) :: List.replicate 31 (byte 0)

def pkSeed : List B → Option Nat
  | B.node (B.leaf 2) (B.leaf s) :: rest =>
      if rest = List.replicate 31 (byte 0) then some s else none
  | _ => none

def skSeed : List B → Option Nat
  | B.node (B.leaf 3) (B.leaf s) :: rest =>
      if rest = List.replicate 31 (byte 0) then some s else none
  | _ => none

def sharedKey (pk sk : List B) : List B :=
  match pkSeed pk, skSeed sk with
  | some a, some b =>
      [B.node (B.leaf 4) (B.node (B.leaf (min a b)) (B.leaf (max a b)))]
  | _, _ => [B.node (B.leaf 5) (B.node (pack pk) (pack sk))]

theorem pkSeed_pkey (s : Nat) : pkSeed (pkey s) = some s := by
  simp [pkSeed, pkey]

theorem skSeed_skey (s : Nat) : skSeed (skey s) = some s := by
  simp [skSeed, skey]

/-- The Diffie-Hellman identity for genuine key pairs. -/
theorem sharedKey_comm (a b : Nat) :
    sharedKey (pkey a) (skey b) = sharedKey (pkey b) (skey a) := by
  simp only [sharedKey, pkSeed_pkey, skSeed_skey]
  rw [Nat.min_comm, Nat.max_comm]

def boxSeal (pk sk nonce pt : List B) : List B :=
  secretboxSeal (sharedKey pk sk) nonce pt

def boxOpen (pk sk nonce c : List B) : Option (List B) :=
  secretboxOpen (sharedKey pk sk) nonce c

theorem boxOpen_seal (a b : Nat) (nonce pt : List B) :
    boxOpen (pkey a) (skey b) nonce (boxSeal (pkey b) (skey a) nonce pt) =
      some pt := by
  rw [boxSeal, boxOpen, sharedKey_comm b a, secretboxOpen_seal]

/-! ### Domain parsing (`domainToString`, `server.go`)

Faithful translation of the Go loop: read a length byte `l`; `l = 0`
terminates and joins the labels with dots; `l > 63` or a label overrunning
the remaining bytes is malformed (empty result); otherwise consume the
label and continue. When the input is exhausted without a terminator the
labels collected so far are joined (the Go loop simply ends). -/

/-- Go `string(bytes)` for a label. -/
def goStr (l : List B) : String := String.mk (l.map (fun b => Char.ofNat (bval b)))

def dotSep : String := "."

/-- The Go loop of `domainToString`. The `fuel` argument only makes the
recursion structural (each iteration consumes at least one byte, so
`fuel = |d|` always suffices and the fuel-exhausted case is unreachable);
it is what lets concrete packets evaluate inside the kernel. -/
def domainAux : Nat → List B → List String → String
  | _, [], ret => String.intercalate dotSep ret
  | 0, _ :: _, _ => ""
  | fuel + 1, d0 :: rest, ret =>
    let l := bval d0
    if l = 0 then String.intercalate dotSep ret
    else if 63 < l ∨ rest.length < l then ""
    else domainAux fuel (rest.drop l) (ret ++ [goStr (rest.take l)])

def domainToString (d : List B) : String := domainAux d.length d []

/-! ### `server.checkHello` (`server.go`) -/

/-- `server.checkHello`: accept only when still listening, the datagram is
exactly 224 bytes with the Hello magic, and the 80-byte box at `[144:224)`
opens under the client short-term public key at `[40:72)` and the server
long-term secret key, with nonce `"CurveCP-client-H" ++ pb[136:144]`. -/
def checkHello (listen : Bool) (longTermSecretKey : List B) (pb : List B) : Bool :=
  if ¬listen ∨ pb.length ≠ 224 ∨ gslice pb 0 8 ≠ helloMagic then false
  else
    (boxOpen (gslice pb 40 72) longTermSecretKey
      (helloNP ++ gslice pb 136 144) (gslice pb 144 224)).isSome

/-! ### Cookie construction (`server.pump`, Hello branch) -/

/-- The Cookie response built by `server.pump` for a valid Hello `pb`:
a fresh server short-term key pair (seed `sSeed`), the pair
`(client short pk, server short sk)` sealed under the current minute key
with nonce tail `minuteTail`, and the 128-byte plaintext
`server short pk ++ minuteTail ++ minute-sealed cookie` sealed toward the
client under the long-term secret key with nonce tail `cookieTail`. The
header echoes the extensions swapped. -/
def mkCookiePacket (longTermSecretKey minuteKey : List B) (pb : List B)
    (sSeed : Nat) (minuteTail cookieTail : List B) : List B :=
  let clientKey := gslice pb 40 72
  let sealed := secretboxSeal minuteKey (minuteNP ++ minuteTail) (clientKey ++ skey sSeed)
  let inner := pkey sSeed ++ minuteTail ++ sealed
  let outer := boxSeal clientKey longTermSecretKey (cookieNP ++ cookieTail) inner
  cookieMagic ++ gslice pb 24 40 ++ gslice pb 8 24 ++ cookieTail ++ outer

/-! ### `server.checkInitiate` (`server.go`) -/

/-- Result of `checkInitiate`: the three Go return values plus the (possibly
mutated) datagram buffer. -/
structure InitResult where
  serverShortTermKey : List B
  domain : String
  valid : Bool
  buf : List B
deriving DecidableEq

/-- Shorthand for the rejection results: the buffer is returned unchanged. -/
def rejectWith (k : List B) (d : String) (pb : List B) : InitResult :=
  ⟨k, d, false, pb⟩

/-- `server.checkInitiate`, translated statement by statement. On success
the encrypted box at `[176:)` is overwritten in place by its plaintext and
the trailing 16 bytes (the former authenticator) are zeroed. -/
def checkInitiate (minuteKey prevMinuteKey longTermSecretKey : List B)
    (pb : List B) : InitResult :=
  if pb.length < 544 ∨ gslice pb 0 8 ≠ initiateMagic then rejectWith [] "" pb
  else
    let nonceC := minuteNP ++ gslice pb 72 88
    let ck := gslice pb 88 168
    match (secretboxOpen minuteKey nonceC ck).orElse
        (fun _ => secretboxOpen prevMinuteKey nonceC ck) with
    | none => rejectWith [] "" pb
    | some cookie =>
      if cookie.take 32 ≠ gslice pb 40 72 then rejectWith [] "" pb
      else
        let serverKey := cookie.drop 32
        let nonceI := initiateNP ++ gslice pb 168 176
        let clientShortTermKey := gslice pb 40 72
        match boxOpen clientShortTermKey serverKey nonceI (pb.drop 176) with
        | none => rejectWith serverKey "" pb
        | some initiate =>
          let dom := domainToString (gslice initiate 96 352)
          if dom = "" then rejectWith serverKey "" pb
          else
            let clientLongTermKey := initiate.take 32
            let nonceV := vouchNP ++ gslice initiate 32 48
            match boxOpen clientLongTermKey longTermSecretKey nonceV
                (gslice initiate 48 96) with
            | none => rejectWith serverKey dom pb
            | some vouch =>
              if vouch ≠ gslice pb 40 72 then rejectWith serverKey dom pb
              else
                let b1 := setRange pb 176 initiate
                let b2 := setRange b1 (pb.length - 16) (List.replicate 16 (byte 0))
                ⟨serverKey, dom, true, b2⟩

/-! ### The packet pump (`server.pump`, datagram case) -/

/-- Observable outcome of `server.pump` processing one datagram: the
Cookie response written to the socket (if any), the client short-term key
of a newly accepted connection (if any), whether the packet was forwarded
to an existing connection, and the updated connection table. -/
structure PumpOut where
  resp : Option (List B)
  accepted : Option (List B)
  forwarded : Bool
  conns : List (List B)
deriving DecidableEq

/-- One iteration of `server.pump`'s `packetIn` case. `conns` is the set of
client short-term keys with a live connection; `sSeed`, `minuteTail` and
`cookieTail` are the fresh randomness drawn in the Hello branch. -/
def pumpDatagram (listen : Bool) (longTermSecretKey minuteKey prevMinuteKey : List B)
    (conns : List (List B)) (pb : List B)
    (sSeed : Nat) (minuteTail cookieTail : List B) : PumpOut :=
  if checkHello listen longTermSecretKey pb then
    ⟨some (mkCookiePacket longTermSecretKey minuteKey pb sSeed minuteTail cookieTail),
      none, false, conns⟩
  else
    let r := checkInitiate minuteKey prevMinuteKey longTermSecretKey pb
    if r.valid then
      let clientShortTermKey := gslice pb 40 72
      if clientShortTermKey ∈ conns then ⟨none, none, true, conns⟩
      else if listen then ⟨none, some clientShortTermKey, false, clientShortTermKey :: conns⟩
      else ⟨none, none, false, conns⟩
    else ⟨none, none, false, conns⟩

/-! ### Minute-key rotation (`server.pump`, `rotateMinuteKey` case) -/

/-- The listener state touched by the 30-second rotation tick. -/
structure ListenerKeys where
  longTermSecretKey : List B
  minuteKey : List B
  prevMinuteKey : List B
  listen : Bool
  timerRunning : Bool
deriving DecidableEq

/-- The all-zero 32-byte key left after cleanup (the Go loop zeroes all 32
bytes of each of the three key arrays). -/
def zeroKey : List B := List.replicate 32 (byte 0)

/-- One rotation tick: once the listener has stopped and current equals
previous, zero all key material and stop the timer; otherwise copy current
into previous and, while listening, draw the fresh random key `fresh`. -/
def rotateTick (s : ListenerKeys) (fresh : List B) : ListenerKeys :=
  if ¬s.listen ∧ s.minuteKey = s.prevMinuteKey then
    { s with minuteKey := zeroKey, prevMinuteKey := zeroKey,
             longTermSecretKey := zeroKey, timerRunning := false }
  else
    { s with prevMinuteKey := s.minuteKey,
             minuteKey := if s.listen then fresh else s.minuteKey }

/-! ### The Chicago congestion-control scheduler

Embedding of `scheduler` and `scheduler.Adjust`. Durations and instants
are `Int` nanoseconds. `godiv` is Go's `int64` division (truncation toward
zero); `wrap64` applies two's-complement wrap-around, which matters for the
products in the additive-increase step. `time.Since(x)` is `now - x`; the
two `rand` draws of `Adjust` are the injected arguments `r1` (slow-restart
jitter, in `[0, 1s/8)`) and `r2` (back-off jitter, in
`[0, txThrottle/4)`). -/

def godiv (a b : Int) : Int := Int.tdiv a b

def wrap64 (x : Int) : Int := (x + 2 ^ 63) % 2 ^ 64 - 2 ^ 63

def iabs (d : Int) : Int := if d < 0 then -d else d

def nsUsec : Int := 1000
def nsMsec : Int := 1000000
def nsSec : Int := 1000000000

/-- `2^51`, the `timeConstant` of the additive-increase step. -/
def timeConstant : Int := 2251799813685248

structure Sched where
  txThrottle : Int
  txTimeout : Int
  rttAverage : Int
  rttMeanDev : Int
  rttHigh : Int
  rttLow : Int
  lastThrottleAdjustment : Int
  wasHigh : Bool
  wasLow : Bool
  falling : Bool
  lastEdge : Int
  lastDoubling : Int
deriving DecidableEq

/-- `newScheduler`: throttle and timeout start at one second; every other
field starts at its zero value. -/
def newScheduler : Sched :=
  { txThrottle := nsSec, txTimeout := nsSec, rttAverage := 0, rttMeanDev := 0,
    rttHigh := 0, rttLow := 0, lastThrottleAdjustment := 0,
    wasHigh := false, wasLow := false, falling := false,
    lastEdge := 0, lastDoubling := 0 }

/-- `scheduler.init`: seed every estimator from the first RTT observation. -/
def schedInit (s : Sched) (rtt now : Int) : Sched :=
  { s with txThrottle := rtt, rttAverage := rtt, rttMeanDev := godiv rtt 2,
           rttHigh := rtt, rttLow := rtt, lastThrottleAdjustment := now }

/-- The Jacobson/Karels retransmit-timeout update (`Adjust`, first block). -/
def jkUpdate (s : Sched) (rtt : Int) : Sched :=
  let averageDelta := rtt - s.rttAverage
  let s := { s with rttAverage := s.rttAverage + godiv averageDelta 8 }
  let meanDevDelta := iabs averageDelta - s.rttMeanDev
  let s := { s with rttMeanDev := s.rttMeanDev + godiv meanDevDelta 4 }
  { s with txTimeout := s.rttAverage + 4 * s.rttMeanDev + 8 * s.txThrottle }

/-- The high/low envelope update (`Adjust`, second block). -/
def envelopeUpdate (s : Sched) (rtt : Int) : Sched :=
  let s := { s with rttHigh := s.rttHigh + godiv (rtt - s.rttHigh) 1024 }
  let lowDelta := rtt - s.rttLow
  { s with rttLow := s.rttLow +
      (if 0 < lowDelta then godiv lowDelta 8192 else godiv lowDelta 256) }

/-- The idle slow-restart assignment: after more than 10 s without an
adjustment, reset the throttle to one second plus the jitter `r1`. -/
def slowRestarted (s : Sched) (sinceAdjust r1 : Int) : Sched :=
  if 10 * nsSec < sinceAdjust then { s with txThrottle := nsSec + r1 } else s

/-- The additive-increase step (`N -= cN³` below 16 ms, `N = N/(1+cN²)`
above), taken only while the throttle exceeds 100 µs. The products wrap as
Go's `int64` multiplication does. -/
def additiveIncrease (s : Sched) : Sched :=
  if 100 * nsUsec < s.txThrottle then
    if s.txThrottle < 16 * nsMsec then
      { s with txThrottle := s.txThrottle -
          godiv (wrap64 (wrap64 (s.txThrottle * s.txThrottle) * s.txThrottle)) timeConstant }
    else
      { s with txThrottle :=
          godiv s.txThrottle (1 + godiv (wrap64 (s.txThrottle * s.txThrottle)) timeConstant) }
  else s

/-- The congestion-cycle edge handling: leave the falling phase at a low,
enter it (with back-off jitter `r2`) past a high. -/
def cycleEdges (s : Sched) (now r2 : Int) : Sched :=
  if s.falling then
    if s.wasLow then { s with falling := false } else s
  else
    if s.wasHigh then
      { s with txThrottle := s.txThrottle + r2, lastEdge := now, falling := true }
    else s

/-- Refresh the high/low flags for the next cycle. -/
def updateFlags (s : Sched) : Sched :=
  { s with wasLow := decide (s.rttAverage < s.rttLow),
           wasHigh := decide (s.rttHigh + 5 * nsMsec < s.rttAverage) }

/-- The periodic rate doubling (halving of the throttle), guarded by the
time since the last doubling and the last cycle edge. -/
def doubling (s : Sched) (now : Int) : Sched :=
  if 100 * nsUsec < s.txThrottle then
    if now - s.lastEdge < 60 * nsSec then
      if now < s.lastDoubling + 4 * s.txThrottle + 64 * s.txTimeout + 5 * nsSec then s
      else { s with txThrottle := godiv s.txThrottle 2, lastDoubling := now, lastEdge := now }
    else
      if now < s.lastDoubling + 4 * s.txThrottle + 2 * s.txTimeout then s
      else { s with txThrottle := godiv s.txThrottle 2, lastDoubling := now, lastEdge := now }
  else s

/-- The throttle-reconsideration block, entered every 16 packet intervals. -/
def throttleCycle (s : Sched) (now sinceAdjust r1 r2 : Int) : Sched :=
  let s := slowRestarted s sinceAdjust r1
  let s := { s with lastThrottleAdjustment := now }
  let s := additiveIncrease s
  let s := cycleEdges s now r2
  let s := updateFlags s
  doubling s now

/-- `scheduler.Adjust`: on the first observation (`rttAverage = 0`) the
scheduler is initialized, and the code then falls through to the regular
updates in the same call. -/
def adjust (s : Sched) (rtt now r1 r2 : Int) : Sched :=
  let s := if s.rttAverage = 0 then schedInit s rtt now else s
  let s := jkUpdate s rtt
  let s := envelopeUpdate s rtt
  let sinceAdjust := now - s.lastThrottleAdjustment
  if 16 * s.txThrottle ≤ sinceAdjust then throttleCycle s now sinceAdjust r1 r2 else s

/-! ### The receive ring buffer

Translation of the `ringbuf` type. `writeAux` and `readAux` are the bodies
of the Go `for` loops of `Write` and `Read`; each iteration copies one
contiguous segment. A read is represented by the length of the caller's
destination slice plus the accumulated output bytes. The `0 < n` guards
keep the recursion total; whenever the ring invariants hold the guards are
provably true (a Go iteration always copies at least one byte). -/

structure Ringbuf where
  buf : List Nat
  start : Nat
  size : Nat
deriving DecidableEq

def newRingbuf (size : Nat) : Ringbuf := ⟨List.replicate size 0, 0, 0⟩

/-- The Go loop of `ringbuf.Write`. `fuel` makes the recursion structural:
each iteration copies at least one byte of `b` (whenever the ring
invariants hold), so `fuel = |b|` suffices. -/
def writeAux : Nat → List Nat → Nat → Nat → List Nat → Nat → List Nat × Nat × Nat
  | 0, buf, _, sz, _, acc => (buf, sz, acc)
  | fuel + 1, buf, start, sz, b, acc =>
    if b = [] ∨ ¬sz < buf.length then (buf, sz, acc)
    else
      let st := (start + sz) % buf.length
      let en := min (st + buf.length - sz) buf.length
      let n := min (en - st) b.length
      writeAux fuel (buf.take st ++ b.take n ++ buf.drop (st + n)) start (sz + n)
        (b.drop n) (acc + n)

/-- `ringbuf.Write`: append as many bytes of `b` as fit; the cursor of the
oldest byte does not move. -/
def Ringbuf.write (r : Ringbuf) (b : List Nat) : Ringbuf × Nat :=
  let res := writeAux b.length r.buf r.start r.size b 0
  (⟨res.1, r.start, res.2.1⟩, res.2.2)

/-- The Go loop of `ringbuf.Read`. `fuel` makes the recursion structural:
each iteration delivers at least one byte (whenever the ring invariants
hold), so `fuel = dstLen` suffices. -/
def readAux : Nat → List Nat → Nat → Nat → Nat → List Nat → Nat → Nat × Nat × Nat × List Nat
  | 0, _, start, sz, _, out, acc => (start, sz, acc, out)
  | fuel + 1, buf, start, sz, dstLen, out, acc =>
    if dstLen = 0 ∨ sz = 0 then (start, sz, acc, out)
    else
      let en := min (start + sz) buf.length
      let n := min (en - start) dstLen
      readAux fuel buf ((start + n) % buf.length) (sz - n) (dstLen - n)
        (out ++ ((buf.drop start).take (en - start)).take n) (acc + n)

/-- `ringbuf.Read` into a destination of length `dstLen`: returns the
updated ring, the count removed and the bytes delivered. -/
def Ringbuf.read (r : Ringbuf) (dstLen : Nat) : Ringbuf × Nat × List Nat :=
  let res := readAux dstLen r.buf r.start r.size dstLen [] 0
  (⟨r.buf, res.1, res.2.1⟩, res.2.2.1, res.2.2.2)

/-- A finite script of ring-buffer operations. -/
inductive RbOp where
  | wr : List Nat → RbOp
  | rd : Nat → RbOp

/-- Run a script, accumulating total bytes written into and read out of
the ring. -/
def runOps (r : Ringbuf) : List RbOp → Ringbuf × Nat × Nat
  | [] => (r, 0, 0)
  | RbOp.wr b :: rest =>
      let res := r.write b
      let fin := runOps res.1 rest
      (fin.1, res.2 + fin.2.1, fin.2.2)
  | RbOp.rd k :: rest =>
      let res := r.read k
      let fin := runOps res.1 rest
      (fin.1, fin.2.1, res.2.1 + fin.2.2)


/-! ## Claim theorems -/

/-- C5: on each 30-second rotation tick, if the listener has stopped and
current and previous minute keys agree, all long-lived secret material is
zeroed and the timer stops; otherwise current is copied into previous and
a fresh current key is drawn exactly when still accepting. Consequently,
after close (with the keys still distinct), the first rotation equalizes
the keys and the second zeroes everything and stops the timer. -/
theorem c5_minute_key_rotation (s : ListenerKeys) (f1 f2 : List B) :
    ((¬s.listen ∧ s.minuteKey = s.prevMinuteKey) →
      rotateTick s f1 =
        { s with minuteKey := zeroKey, prevMinuteKey := zeroKey,
                 longTermSecretKey := zeroKey, timerRunning := false }) ∧
    (¬(¬s.listen ∧ s.minuteKey = s.prevMinuteKey) →
      (rotateTick s f1).prevMinuteKey = s.minuteKey ∧
      (rotateTick s f1).minuteKey = (if s.listen then f1 else s.minuteKey) ∧
      (rotateTick s f1).longTermSecretKey = s.longTermSecretKey ∧
      (rotateTick s f1).timerRunning = s.timerRunning) ∧
    (s.listen = false → s.minuteKey ≠ s.prevMinuteKey →
      (rotateTick s f1).minuteKey = (rotateTick s f1).prevMinuteKey ∧
      rotateTick (rotateTick s f1) f2 =
        { s with minuteKey := zeroKey, prevMinuteKey := zeroKey,
                 longTermSecretKey := zeroKey, timerRunning := false }) := by
  refine ⟨fun h => ?_, fun h => ?_, fun hl hne => ?_⟩
  · rw [rotateTick, if_pos h]
  · rw [rotateTick, if_neg h]
    exact ⟨rfl, rfl, rfl, rfl⟩
  · have hcond : ¬(¬s.listen = true ∧ s.minuteKey = s.prevMinuteKey) :=
      fun hc => hne hc.2
    have h1 : rotateTick s f1 =
        { s with prevMinuteKey := s.minuteKey, minuteKey := s.minuteKey } := by
      rw [rotateTick, if_neg hcond]
      simp [hl]
    refine ⟨by rw [h1], ?_⟩
    rw [h1, rotateTick, if_pos (by simp [hl])]

/-- C5 witness: a concrete closed listener state with distinct minute
keys; both tick behaviours and the shutdown consequence instantiate. -/
theorem c5_minute_key_rotation_witness :
    ((¬(ListenerKeys.mk (skey 1) [byte 1] [byte 2] false true).listen ∧
        (ListenerKeys.mk (skey 1) [byte 1] [byte 2] false true).minuteKey =
          (ListenerKeys.mk (skey 1) [byte 1] [byte 2] false true).prevMinuteKey) →
      rotateTick (ListenerKeys.mk (skey 1) [byte 1] [byte 2] false true) [byte 3] =
        { ListenerKeys.mk (skey 1) [byte 1] [byte 2] false true with
            minuteKey := zeroKey, prevMinuteKey := zeroKey,
            longTermSecretKey := zeroKey, timerRunning := false }) ∧
    (¬(¬(ListenerKeys.mk (skey 1) [byte 1] [byte 2] false true).listen ∧
        (ListenerKeys.mk (skey 1) [byte 1] [byte 2] false true).minuteKey =
          (ListenerKeys.mk (skey 1) [byte 1] [byte 2] false true).prevMinuteKey) →
      (rotateTick (ListenerKeys.mk (skey 1) [byte 1] [byte 2] false true) [byte 3]).prevMinuteKey =
        (ListenerKeys.mk (skey 1) [byte 1] [byte 2] false true).minuteKey ∧
      (rotateTick (ListenerKeys.mk (skey 1) [byte 1] [byte 2] false true) [byte 3]).minuteKey =
        (if (ListenerKeys.mk (skey 1) [byte 1] [byte 2] false true).listen then [byte 3]
         else (ListenerKeys.mk (skey 1) [byte 1] [byte 2] false true).minuteKey) ∧
      (rotateTick (ListenerKeys.mk (skey 1) [byte 1] [byte 2] false true) [byte 3]).longTermSecretKey =
        (ListenerKeys.mk (skey 1) [byte 1] [byte 2] false true).longTermSecretKey ∧
      (rotateTick (ListenerKeys.mk (skey 1) [byte 1] [byte 2] false true) [byte 3]).timerRunning =
        (ListenerKeys.mk (skey 1) [byte 1] [byte 2] false true).timerRunning) ∧
    ((ListenerKeys.mk (skey 1) [byte 1] [byte 2] false true).listen = false →
      (ListenerKeys.mk (skey 1) [byte 1] [byte 2] false true).minuteKey ≠
        (ListenerKeys.mk (skey 1) [byte 1] [byte 2] false true).prevMinuteKey →
      (rotateTick (ListenerKeys.mk (skey 1) [byte 1] [byte 2] false true) [byte 3]).minuteKey =
        (rotateTick (ListenerKeys.mk (skey 1) [byte 1] [byte 2] false true) [byte 3]).prevMinuteKey ∧
      rotateTick (rotateTick (ListenerKeys.mk (skey 1) [byte 1] [byte 2] false true) [byte 3]) [byte 4] =
        { ListenerKeys.mk (skey 1) [byte 1] [byte 2] false true with
            minuteKey := zeroKey, prevMinuteKey := zeroKey,
            longTermSecretKey := zeroKey, timerRunning := false }) :=
  c5_minute_key_rotation (ListenerKeys.mk (skey 1) [byte 1] [byte 2] false true)
    [byte 3] [byte 4]

/-- C6 counterexample: the first `Adjust` call falls through from `init`
into the Jacobson/Karels update, so immediately after a first call with
`rtt = 8` the mean deviation is `3`, not `rtt/2 = 4` as claimed. -/
theorem c6_first_call_counterexample :
    (adjust newScheduler 8 1000 0 0).rttMeanDev = 3 ∧ (3 : Int) ≠ godiv 8 2 := by
  decide

/-- C6 (amended): a call with `rttAverage = 0` (in particular the first
call) initializes `txThrottle = rttAverage = rttHigh = rttLow = rtt`,
`rttMeanDev = rtt/2`, `lastThrottleAdjustment = now`, and then the regular
updates still run in the same call: with zero deltas and no elapsed time
only the mean deviation changes, to `rtt/2 - (rtt/2)/4`. -/
theorem c6_first_call_amended (s : Sched) (rtt now r1 r2 : Int)
    (h0 : s.rttAverage = 0) (hpos : 0 < rtt) :
    (adjust s rtt now r1 r2).txThrottle = rtt ∧
    (adjust s rtt now r1 r2).rttAverage = rtt ∧
    (adjust s rtt now r1 r2).rttHigh = rtt ∧
    (adjust s rtt now r1 r2).rttLow = rtt ∧
    (adjust s rtt now r1 r2).lastThrottleAdjustment = now ∧
    (adjust s rtt now r1 r2).rttMeanDev = godiv rtt 2 - godiv (godiv rtt 2) 4 ∧
    (adjust s rtt now r1 r2).txTimeout =
      rtt + 4 * (godiv rtt 2 - godiv (godiv rtt 2) 4) + 8 * rtt := by
  have hA : ∀ x : Sched, x = envelopeUpdate (jkUpdate (schedInit s rtt now) rtt) rtt →
      x.txThrottle = rtt ∧ x.rttAverage = rtt ∧ x.rttHigh = rtt ∧ x.rttLow = rtt ∧
      x.lastThrottleAdjustment = now ∧
      x.rttMeanDev = godiv rtt 2 - godiv (godiv rtt 2) 4 ∧
      x.txTimeout = rtt + 4 * (godiv rtt 2 - godiv (godiv rtt 2) 4) + 8 * rtt := by
    intro x hx
    subst hx
    simp only [envelopeUpdate, jkUpdate, schedInit, godiv, iabs, sub_self,
      Int.zero_tdiv, add_zero, lt_irrefl, if_false, zero_sub, Int.neg_tdiv,
      ite_self, ← sub_eq_add_neg]
    exact ⟨trivial, trivial, trivial, trivial, trivial, trivial, trivial⟩
  have hfields := hA _ rfl
  have hmain : adjust s rtt now r1 r2 =
      envelopeUpdate (jkUpdate (schedInit s rtt now) rtt) rtt := by
    have h0' : (s.rttAverage = 0) = True := by simp [h0]
    simp only [adjust, h0', if_true]
    rw [if_neg]
    rw [hfields.1, hfields.2.2.2.2.1]
    omega
  rw [hmain]
  exact hfields

/-- C6 amended witness at `rtt = 8`, `now = 1000`. -/
theorem c6_first_call_amended_witness :
    newScheduler.rttAverage = 0 ∧ (0 : Int) < 8 ∧
    (adjust newScheduler 8 1000 0 0).rttAverage = 8 ∧
    (adjust newScheduler 8 1000 0 0).rttMeanDev = godiv 8 2 - godiv (godiv 8 2) 4 := by
  refine ⟨by decide, by decide, ?_, ?_⟩
  · exact (c6_first_call_amended newScheduler 8 1000 0 0 (by decide) (by decide)).2.1
  · exact (c6_first_call_amended newScheduler 8 1000 0 0 (by decide) (by decide)).2.2.2.2.2.1

/-- The scheduler state after one `Adjust(50 ms)` call at time 0 on a
fresh scheduler: a concrete state that has processed one prior sample. -/
def schedAfterOne : Sched := adjust newScheduler 50000000 0 0 0

/-- C7 counterexample: after more than 10 s of idleness, a single
`Adjust` call performs the slow restart but then continues into the
additive-increase step of the same call, leaving `txThrottle` far below
one second (here 1 s / 445), so the final value is not in
`[1 s, 1 s + 125 ms)`. -/
theorem c7_idle_restart_counterexample :
    10 * nsSec < 11000000000 - schedAfterOne.lastThrottleAdjustment ∧
    (adjust schedAfterOne 50000000 11000000000 0 0).txThrottle = 2247191 ∧
    (adjust schedAfterOne 50000000 11000000000 0 0).txThrottle < nsSec := by
  decide

/-- C7 (amended): the idle slow restart assigns `txThrottle` a value in
`[1 s, 1 s + 125 ms)` — but only as the intermediate value inside the
throttle-reconsideration block, whose later additive-increase and doubling
steps adjust it further before `Adjust` returns (the block itself being
`slowRestarted` followed by those steps). -/
theorem c7_idle_restart_amended (s : Sched) (now sinceAdjust r1 r2 : Int)
    (hidle : 10 * nsSec < sinceAdjust) (hr0 : 0 ≤ r1) (hr1 : r1 < godiv nsSec 8) :
    nsSec ≤ (slowRestarted s sinceAdjust r1).txThrottle ∧
    (slowRestarted s sinceAdjust r1).txThrottle < nsSec + 125000000 ∧
    throttleCycle s now sinceAdjust r1 r2 =
      doubling (updateFlags (cycleEdges (additiveIncrease
        { slowRestarted s sinceAdjust r1 with lastThrottleAdjustment := now }) now r2)) now := by
  have hgd : godiv nsSec 8 = 125000000 := by decide
  rw [hgd] at hr1
  rw [slowRestarted, if_pos hidle]
  refine ⟨by simp [nsSec]; omega, by simp [nsSec]; omega, ?_⟩
  rw [throttleCycle, slowRestarted, if_pos hidle]

/-- C7 amended witness at a concrete idle gap and jitter draw. -/
theorem c7_idle_restart_amended_witness :
    10 * nsSec < (11000000000 : Int) ∧ (0 : Int) ≤ 0 ∧ (0 : Int) < godiv nsSec 8 ∧
    nsSec ≤ (slowRestarted schedAfterOne 11000000000 0).txThrottle ∧
    (slowRestarted schedAfterOne 11000000000 0).txThrottle < nsSec + 125000000 :=
  ⟨by decide, by decide, by decide,
    (c7_idle_restart_amended schedAfterOne 11000000000 11000000000 0 0
      (by decide) (by decide) (by decide)).1,
    (c7_idle_restart_amended schedAfterOne 11000000000 11000000000 0 0
      (by decide) (by decide) (by decide)).2.1⟩

/-- C10: whatever check fails, `checkInitiate` leaves the datagram buffer
entirely unchanged; bytes are rewritten only when validation fully
succeeds. -/
theorem c10_failure_atomicity (minuteKey prevMinuteKey longTermSecretKey pb : List B)
    (h : (checkInitiate minuteKey prevMinuteKey longTermSecretKey pb).valid = false) :
    (checkInitiate minuteKey prevMinuteKey longTermSecretKey pb).buf = pb := by
  have main : (checkInitiate minuteKey prevMinuteKey longTermSecretKey pb).valid = true ∨
      (checkInitiate minuteKey prevMinuteKey longTermSecretKey pb).buf = pb := by
    unfold checkInitiate
    split
    · right; rfl
    · try dsimp only
      split
      · right; rfl
      · try dsimp only
        split
        · right; rfl
        · try dsimp only
          split
          · right; rfl
          · try dsimp only
            split
            · right; rfl
            · try dsimp only
              split
              · right; rfl
              · try dsimp only
                split
                · right; rfl
                · left; rfl
  rcases main with hv | hb
  · rw [hv] at h; cases h
  · exact hb

/-- C10 witness: an empty datagram is rejected on the length check and
returned untouched. -/
theorem c10_failure_atomicity_witness :
    (checkInitiate zeroKey zeroKey zeroKey []).valid = false ∧
    (checkInitiate zeroKey zeroKey zeroKey []).buf = [] :=
  ⟨by decide, c10_failure_atomicity zeroKey zeroKey zeroKey [] (by decide)⟩

/-! ### Claim-side domain grammars (C9) -/

/-- Modelled from the claim's words: the field must be a sequence of
(length-byte, label) segments, each length between 1 and 63 and fitting in
the remaining bytes, **terminated by a zero length byte**; the result is
the list of labels. `fuel` as in `domainAux`. -/
def claimDomainParse : Nat → List B → Option (List String)
  | _, [] => none
  | 0, _ :: _ => none
  | fuel + 1, d0 :: rest =>
    let l := bval d0
    if l = 0 then some []
    else if 1 ≤ l ∧ l ≤ 63 ∧ l ≤ rest.length then
      (claimDomainParse fuel (rest.drop l)).map (fun ls => goStr (rest.take l) :: ls)
    else none

/-- The grammar the code actually accepts: as `claimDomainParse`, but the
labels may also exactly exhaust the field with no zero terminator. -/
def codeDomainParse : Nat → List B → Option (List String)
  | _, [] => some []
  | 0, _ :: _ => none
  | fuel + 1, d0 :: rest =>
    let l := bval d0
    if l = 0 then some []
    else if 1 ≤ l ∧ l ≤ 63 ∧ l ≤ rest.length then
      (codeDomainParse fuel (rest.drop l)).map (fun ls => goStr (rest.take l) :: ls)
    else none

theorem domainAux_eq_codeParse :
    ∀ (fuel : Nat) (d : List B) (ret : List String),
      domainAux fuel d ret =
        (match codeDomainParse fuel d with
          | none => ""
          | some ls => String.intercalate dotSep (ret ++ ls)) := by
  intro fuel
  induction fuel with
  | zero =>
    intro d ret
    cases d with
    | nil => simp [domainAux, codeDomainParse]
    | cons d0 rest => simp [domainAux, codeDomainParse]
  | succ fuel ih =>
    intro d ret
    cases d with
    | nil => simp [domainAux, codeDomainParse]
    | cons d0 rest =>
      by_cases h0 : bval d0 = 0
      · simp [domainAux, codeDomainParse, h0]
      · by_cases hbad : 63 < bval d0 ∨ rest.length < bval d0
        · have hnot : ¬(1 ≤ bval d0 ∧ bval d0 ≤ 63 ∧ bval d0 ≤ rest.length) := by omega
          simp [domainAux, codeDomainParse, h0, hbad, hnot]
        · have hok : 1 ≤ bval d0 ∧ bval d0 ≤ 63 ∧ bval d0 ≤ rest.length := by omega
          simp only [domainAux, codeDomainParse, h0, hbad, hok, if_neg, if_pos,
            ite_false, ite_true, if_false]
          rw [ih]
          cases codeDomainParse fuel (rest.drop (bval d0)) with
          | none => simp
          | some ls => simp [List.append_assoc]

/-- Each parsed label is a nonempty string. -/
theorem codeDomainParse_labels_ne :
    ∀ (fuel : Nat) (d : List B) (ls : List String),
      codeDomainParse fuel d = some ls → ∀ x ∈ ls, x ≠ "" := by
  intro fuel
  induction fuel with
  | zero =>
    intro d ls h x hx
    cases d with
    | nil =>
      simp only [codeDomainParse] at h
      cases h
      cases hx
    | cons d0 rest => simp [codeDomainParse] at h
  | succ fuel ih =>
    intro d ls h x hx
    cases d with
    | nil =>
      simp only [codeDomainParse] at h
      cases h
      cases hx
    | cons d0 rest =>
      simp only [codeDomainParse] at h
      split at h
      · cases h
        cases hx
      · split at h
        · rename_i hok
          cases hrec : codeDomainParse fuel (rest.drop (bval d0)) with
          | none => rw [hrec] at h; cases h
          | some ls' =>
            rw [hrec] at h
            cases h
            cases hx with
            | head =>
              intro he
              have hlen : (goStr (rest.take (bval d0))).length = 0 := by
                rw [he]; rfl
              have : (rest.take (bval d0)).length = bval d0 := by
                rw [List.length_take]
                omega
              rw [goStr] at hlen
              simp only [String.length, List.length_map] at hlen
              omega
            | tail _ hmem => exact ih (rest.drop (bval d0)) ls' hrec x hmem
        · cases h

/-- The accumulator is a prefix of `String.intercalate.go`, so its length
only grows. -/
theorem intercalate_go_length (s : String) :
    ∀ (t : List String) (acc : String),
      acc.length ≤ (String.intercalate.go acc s t).length := by
  intro t
  induction t with
  | nil => intro acc; exact le_refl _
  | cons b rest ih =>
    intro acc
    have h1 : (String.intercalate.go acc s (b :: rest)) =
        String.intercalate.go (acc ++ s ++ b) s rest := rfl
    rw [h1]
    have h2 := ih (acc ++ s ++ b)
    have h3 : acc.length ≤ (acc ++ s ++ b).length := by
      rw [String.length_append, String.length_append]
      omega
    omega

theorem str_ne_empty_len {a : String} (h : a ≠ "") : 0 < a.length := by
  cases a with
  | mk l =>
    cases l with
    | nil => exact absurd rfl h
    | cons c cs => simp [String.length]

theorem intercalate_cons_ne {a : String} (t : List String) (h : a ≠ "") :
    String.intercalate dotSep (a :: t) ≠ "" := by
  intro he
  have h1 : String.intercalate dotSep (a :: t) = String.intercalate.go a dotSep t := rfl
  have h2 := intercalate_go_length dotSep t a
  rw [← h1, he] at h2
  have h3 := str_ne_empty_len h
  simp only [String.length, List.length_nil] at h2 h3
  omega

/-- A 64-byte segment: length byte 63 followed by 63 bytes of ASCII `a`. -/
def seg63 : List B := byte 63 :: List.replicate 63 (byte 97)

/-- A 256-byte domain field consisting of four maximal labels and **no
zero terminator**: the labels exactly exhaust the field. -/
def domExhaust : List B := seg63 ++ seg63 ++ seg63 ++ seg63

set_option maxRecDepth 40000 in
/-- C9 counterexample: `domainToString` accepts a 256-byte field whose
labels exactly exhaust it without any zero length byte, so a valid
(non-empty) result does not imply the zero-terminated grammar of the
claim. -/
theorem c9_domain_counterexample :
    domExhaust.length = 256 ∧
    claimDomainParse domExhaust.length domExhaust = none ∧
    domainToString domExhaust ≠ "" := by
  refine ⟨by decide, by decide, ?_⟩
  decide

/-- C9 (amended): `domainToString` yields a valid (non-empty) domain
exactly when the field is a sequence of (length-byte, label) segments,
each label length 1–63 and fitting in the remaining bytes, ending either
in a zero length byte **or with the labels exactly exhausting the field**;
the result is the labels joined with dots, and any malformed encoding
yields the invalid empty string. -/
theorem c9_domain_parsing_amended (d : List B) :
    (codeDomainParse d.length d = none → domainToString d = "") ∧
    (∀ ls, codeDomainParse d.length d = some ls →
      domainToString d = String.intercalate dotSep ls) ∧
    (domainToString d ≠ "" ↔
      ∃ ls, codeDomainParse d.length d = some ls ∧ ls ≠ []) := by
  have hbase := domainAux_eq_codeParse d.length d []
  refine ⟨fun hnone => ?_, fun ls hls => ?_, ?_, ?_⟩
  · rw [domainToString, hbase, hnone]
  · rw [domainToString, hbase, hls]
    simp
  · intro hne
    cases hsome : codeDomainParse d.length d with
    | none =>
      rw [domainToString, hbase, hsome] at hne
      exact absurd rfl hne
    | some ls =>
      refine ⟨ls, rfl, ?_⟩
      intro hnil
      rw [domainToString, hbase, hsome, hnil] at hne
      exact hne rfl
  · rintro ⟨ls, hls, hnil⟩
    rw [domainToString, hbase, hls]
    cases ls with
    | nil => exact absurd rfl hnil
    | cons a t =>
      simp only [List.nil_append]
      exact intercalate_cons_ne t
        (codeDomainParse_labels_ne d.length d (a :: t) hls a (List.mem_cons_self a t))

/-! ### Ring-buffer correctness (C8) -/

/-- The ring invariant: the cursor is inside the backing array and the
byte count never exceeds the capacity. -/
def RbInv (r : Ringbuf) : Prop := r.start < r.buf.length ∧ r.size ≤ r.buf.length

theorem writeAux_spec :
    ∀ (fuel : Nat) (buf : List Nat) (start sz : Nat) (b : List Nat) (acc : Nat),
      b.length ≤ fuel → sz ≤ buf.length →
      (writeAux fuel buf start sz b acc).1.length = buf.length ∧
      (writeAux fuel buf start sz b acc).2.1 = sz + min b.length (buf.length - sz) ∧
      (writeAux fuel buf start sz b acc).2.2 = acc + min b.length (buf.length - sz) := by
  intro fuel
  induction fuel with
  | zero =>
    intro buf start sz b acc hf hsz
    have hb : b = [] := List.eq_nil_of_length_eq_zero (Nat.le_zero.mp hf)
    subst hb
    simp [writeAux]
  | succ fuel ih =>
    intro buf start sz b acc hf hsz
    by_cases hguard : b = [] ∨ ¬sz < buf.length
    · rw [writeAux, if_pos hguard]
      rcases hguard with hb | hszN
      · subst hb; simp
      · have h0 : buf.length - sz = 0 := by omega
        simp [h0]
    · rw [writeAux, if_neg hguard]
      push_neg at hguard
      obtain ⟨hb, hlt⟩ := hguard
      have hN : 0 < buf.length := by omega
      have hb1 : 1 ≤ b.length := List.length_pos.mpr hb
      dsimp only
      have hstlt : (start + sz) % buf.length < buf.length := Nat.mod_lt _ hN
      generalize hst : (start + sz) % buf.length = st at *
      generalize hen : min (st + buf.length - sz) buf.length = en at *
      generalize hn : min (en - st) b.length = n at *
      have hen1 : st + 1 ≤ en := by omega
      have henle : en - st ≤ buf.length - sz := by omega
      have hn1 : 1 ≤ n := by omega
      have hnb : n ≤ b.length := by omega
      have hnsz : n ≤ buf.length - sz := by omega
      have hlen : (buf.take st ++ b.take n ++ buf.drop (st + n)).length = buf.length := by
        simp only [List.length_append, List.length_take, List.length_drop]
        omega
      have hrec := ih (buf.take st ++ b.take n ++ buf.drop (st + n)) start (sz + n)
        (b.drop n) (acc + n)
        (by simp only [List.length_drop]; omega)
        (by rw [hlen]; omega)
      rw [hlen] at hrec
      refine ⟨hrec.1, ?_, ?_⟩
      · rw [hrec.2.1]
        simp only [List.length_drop]
        omega
      · rw [hrec.2.2]
        simp only [List.length_drop]
        omega

theorem readAux_spec :
    ∀ (fuel : Nat) (buf : List Nat) (start sz dstLen : Nat) (out : List Nat) (acc : Nat),
      dstLen ≤ fuel → start < buf.length → sz ≤ buf.length →
      (readAux fuel buf start sz dstLen out acc).1 < buf.length ∧
      (readAux fuel buf start sz dstLen out acc).2.1 = sz - min dstLen sz ∧
      (readAux fuel buf start sz dstLen out acc).2.2.1 = acc + min dstLen sz := by
  intro fuel
  induction fuel with
  | zero =>
    intro buf start sz dstLen out acc hf hstart hsz
    have hd : dstLen = 0 := Nat.le_zero.mp hf
    subst hd
    simp [readAux, hstart]
  | succ fuel ih =>
    intro buf start sz dstLen out acc hf hstart hsz
    by_cases hguard : dstLen = 0 ∨ sz = 0
    · rw [readAux, if_pos hguard]
      rcases hguard with h0 | h0 <;> simp [h0, hstart]
    · rw [readAux, if_neg hguard]
      push_neg at hguard
      obtain ⟨hd, hs⟩ := hguard
      have hN : 0 < buf.length := by omega
      dsimp only
      generalize hen : min (start + sz) buf.length = en at *
      generalize hn : min (en - start) dstLen = n at *
      have hen1 : start + 1 ≤ en := by omega
      have henle : en - start ≤ sz := by omega
      have hn1 : 1 ≤ n := by omega
      have hnd : n ≤ dstLen := by omega
      have hns : n ≤ sz := by omega
      have hrec := ih buf ((start + n) % buf.length) (sz - n) (dstLen - n)
        (out ++ ((buf.drop start).take (en - start)).take n) (acc + n)
        (by omega) (Nat.mod_lt _ hN) (by omega)
      refine ⟨hrec.1, ?_, ?_⟩
      · rw [hrec.2.1]; omega
      · rw [hrec.2.2]; omega

/-- `Write` on a ring satisfying the invariant: the count is
`min |b| (N - size)`, the cursor and capacity are unchanged, and the
invariant is preserved. -/
theorem ringbuf_write_spec (r : Ringbuf) (b : List Nat) (h : RbInv r) :
    (r.write b).2 = min b.length (r.buf.length - r.size) ∧
    (r.write b).1.size = r.size + min b.length (r.buf.length - r.size) ∧
    (r.write b).1.buf.length = r.buf.length ∧
    (r.write b).1.start = r.start ∧
    RbInv (r.write b).1 := by
  obtain ⟨hi1, hi2⟩ := h
  have hs := writeAux_spec b.length r.buf r.start r.size b 0 (le_refl _) hi2
  have h2 : (r.write b).2 = (writeAux b.length r.buf r.start r.size b 0).2.2 := rfl
  have hsize : (r.write b).1.size = (writeAux b.length r.buf r.start r.size b 0).2.1 := rfl
  have hbuf : (r.write b).1.buf = (writeAux b.length r.buf r.start r.size b 0).1 := rfl
  have hstart : (r.write b).1.start = r.start := rfl
  refine ⟨by rw [h2, hs.2.2]; omega, by rw [hsize, hs.2.1], by rw [hbuf, hs.1], hstart, ?_⟩
  constructor
  · rw [hstart, hbuf, hs.1]; exact hi1
  · rw [hsize, hbuf, hs.1, hs.2.1]; omega

/-- `Read` on a ring satisfying the invariant: the count is
`min dstLen size` (0 on an empty ring), the backing array is unchanged,
and the invariant is preserved. -/
theorem ringbuf_read_spec (r : Ringbuf) (k : Nat) (h : RbInv r) :
    (r.read k).2.1 = min k r.size ∧
    (r.read k).1.size = r.size - min k r.size ∧
    (r.read k).1.buf = r.buf ∧
    RbInv (r.read k).1 := by
  obtain ⟨hi1, hi2⟩ := h
  have hs := readAux_spec k r.buf r.start r.size k [] 0 (le_refl _) hi1 hi2
  have hcnt : (r.read k).2.1 = (readAux k r.buf r.start r.size k [] 0).2.2.1 := rfl
  have hsize : (r.read k).1.size = (readAux k r.buf r.start r.size k [] 0).2.1 := rfl
  have hstart : (r.read k).1.start = (readAux k r.buf r.start r.size k [] 0).1 := rfl
  have hbuf : (r.read k).1.buf = r.buf := rfl
  refine ⟨by rw [hcnt, hs.2.2]; omega, by rw [hsize, hs.2.1], hbuf, ?_, ?_⟩
  · rw [hstart, hbuf]
    exact hs.1
  · rw [hsize, hbuf, hs.2.1]
    omega

/-- Running any script preserves the invariant and the capacity, and the
byte counts balance: `final size + total read = initial size + total
written`. -/
theorem runOps_spec :
    ∀ (ops : List RbOp) (r : Ringbuf), RbInv r →
      RbInv (runOps r ops).1 ∧
      (runOps r ops).1.buf.length = r.buf.length ∧
      (runOps r ops).1.size + (runOps r ops).2.2 = r.size + (runOps r ops).2.1 ∧
      (runOps r ops).2.2 ≤ r.size + (runOps r ops).2.1 := by
  intro ops
  induction ops with
  | nil =>
    intro r h
    exact ⟨h, rfl, rfl, by simp [runOps]⟩
  | cons op rest ih =>
    intro r h
    cases op with
    | wr b =>
      have hw := ringbuf_write_spec r b h
      have hr := ih (r.write b).1 hw.2.2.2.2
      have e1 : (runOps r (RbOp.wr b :: rest)).1 = (runOps (r.write b).1 rest).1 := rfl
      have e2 : (runOps r (RbOp.wr b :: rest)).2.1 =
          (r.write b).2 + (runOps (r.write b).1 rest).2.1 := rfl
      have e3 : (runOps r (RbOp.wr b :: rest)).2.2 = (runOps (r.write b).1 rest).2.2 := rfl
      rw [e1, e2, e3]
      refine ⟨hr.1, by rw [hr.2.1, hw.2.2.1], ?_, ?_⟩
      · rw [hw.1]
        have := hr.2.2.1
        rw [hw.2.1] at this
        omega
      · rw [hw.1]
        have := hr.2.2.2
        rw [hw.2.1] at this
        omega
    | rd k =>
      have hw := ringbuf_read_spec r k h
      have hr := ih (r.read k).1 hw.2.2.2
      have e1 : (runOps r (RbOp.rd k :: rest)).1 = (runOps (r.read k).1 rest).1 := rfl
      have e2 : (runOps r (RbOp.rd k :: rest)).2.1 = (runOps (r.read k).1 rest).2.1 := rfl
      have e3 : (runOps r (RbOp.rd k :: rest)).2.2 =
          (r.read k).2.1 + (runOps (r.read k).1 rest).2.2 := rfl
      rw [e1, e2, e3]
      refine ⟨hr.1, by rw [hr.2.1, hw.2.2.1], ?_, ?_⟩
      · rw [hw.1]
        have := hr.2.2.1
        rw [hw.2.1] at this
        omega
      · rw [hw.1]
        have := hr.2.2.2
        rw [hw.2.1] at this
        omega

/-- The ring-buffer laws of the claim, for capacity `N` and any operation
script: write and read counts, conservation of bytes, and the invariants
(stated for positive capacity). -/
def RingbufLaws (N : Nat) (ops : List RbOp) : Prop :=
  (∀ (r : Ringbuf) (b : List Nat), r.buf.length = N → RbInv r →
    (r.write b).2 = min b.length (N - r.size) ∧
    (r.write b).1.size = r.size + (r.write b).2 ∧
    (r.write b).1.buf.length = N) ∧
  (∀ (r : Ringbuf) (k : Nat), r.buf.length = N → RbInv r →
    (r.read k).2.1 = min k r.size ∧
    (r.read k).1.size = r.size - (r.read k).2.1 ∧
    (r.read k).1.buf.length = N ∧
    (r.size = 0 → (r.read k).2.1 = 0)) ∧
  RbInv (runOps (newRingbuf N) ops).1 ∧
  (runOps (newRingbuf N) ops).1.buf.length = N ∧
  (runOps (newRingbuf N) ops).1.size + (runOps (newRingbuf N) ops).2.2 =
    (runOps (newRingbuf N) ops).2.1 ∧
  (runOps (newRingbuf N) ops).2.2 ≤ (runOps (newRingbuf N) ops).2.1

/-- C8 counterexample: on a ring buffer of capacity 0 the write count law
holds, but the claimed invariant `start < N` is false after the
operation (there is no index strictly below a zero capacity). -/
theorem c8_ringbuf_counterexample :
    ((newRingbuf 0).write [1]).2 = min ([1] : List Nat).length (0 - (newRingbuf 0).size) ∧
    ¬((newRingbuf 0).write [1]).1.start < ((newRingbuf 0).write [1]).1.buf.length := by
  decide

/-- C8 (amended): for every ring buffer created with **positive** capacity
`N` and every finite script of writes and reads, `Write` returns exactly
`min (|b|, N - size)`, `Read` returns exactly `min (|dst|, size)` (0 when
empty), the buffer never grows, bytes are conserved
(`size = written - read`), and `0 ≤ start < N`, `0 ≤ size ≤ N` hold after
every operation. -/
theorem c8_ringbuf_amended (N : Nat) (hN : 0 < N) (ops : List RbOp) :
    RingbufLaws N ops := by
  have hinv0 : RbInv (newRingbuf N) := by
    constructor
    · simp [newRingbuf]
      omega
    · simp [newRingbuf]
  have hlen0 : (newRingbuf N).buf.length = N := by simp [newRingbuf]
  have hrun := runOps_spec ops (newRingbuf N) hinv0
  refine ⟨?_, ?_, hrun.1, ?_, ?_, ?_⟩
  · intro r b hlen hinv
    have hw := ringbuf_write_spec r b hinv
    rw [hlen] at hw
    exact ⟨by rw [hw.1], by rw [hw.2.1, hw.1], hw.2.2.1⟩
  · intro r k hlen hinv
    have hr := ringbuf_read_spec r k hinv
    refine ⟨by rw [hr.1], by rw [hr.2.1, hr.1], by rw [hr.2.2.1, hlen], ?_⟩
    intro h0
    rw [hr.1, h0]
    simp
  · rw [hrun.2.1, hlen0]
  · have h := hrun.2.2.1
    have hsz : (newRingbuf N).size = 0 := rfl
    rw [hsz] at h
    omega
  · have h := hrun.2.2.2
    have hsz : (newRingbuf N).size = 0 := rfl
    rw [hsz] at h
    omega

/-- The operation script of the ring-buffer unit test (capacity 5). -/
def rbScript : List RbOp :=
  [RbOp.wr [97, 98, 99], RbOp.wr [100], RbOp.rd 2, RbOp.wr [101, 102],
   RbOp.rd 5, RbOp.rd 5, RbOp.wr [97, 98, 99, 100, 101, 102, 103],
   RbOp.wr [102, 103], RbOp.rd 10, RbOp.wr [97], RbOp.wr [98], RbOp.wr [99],
   RbOp.wr [100], RbOp.wr [101], RbOp.wr [102], RbOp.rd 1, RbOp.rd 1,
   RbOp.rd 1, RbOp.rd 1, RbOp.rd 1, RbOp.rd 1]

/-- C8 amended witness: the laws at capacity 5 on the unit-test script. -/
theorem c8_ringbuf_amended_witness : (0 : Nat) < 5 ∧ RingbufLaws 5 rbScript :=
  ⟨by decide, c8_ringbuf_amended 5 (by decide) rbScript⟩

/-! ### Slice arithmetic for packet proofs -/

theorem gslice_of_decomp (l pre field post : List B) (i j : Nat)
    (hl : l = pre ++ (field ++ post)) (hi : pre.length = i)
    (hj : field.length = j - i) :
    gslice l i j = field := by
  subst hl
  rw [gslice, List.drop_left' hi, List.take_left' hj]

theorem drop_of_decomp (l pre post : List B) (i : Nat)
    (hl : l = pre ++ post) (hi : pre.length = i) :
    l.drop i = post := by
  subst hl
  rw [List.drop_left' hi]

theorem pkey_length (s : Nat) : (pkey s).length = 32 := by simp [pkey]

theorem skey_length (s : Nat) : (skey s).length = 32 := by simp [skey]

theorem boxSeal_length (pk sk nonce pt : List B) :
    (boxSeal pk sk nonce pt).length = pt.length + 16 :=
  secretboxSeal_length _ _ _

theorem initiateMagic_length : initiateMagic.length = 8 := rfl
theorem helloMagic_length : helloMagic.length = 8 := rfl
theorem cookieMagic_length : cookieMagic.length = 8 := rfl

/-! ### Well-formed handshake packets (client side) -/

/-- A Hello packet as a correct client builds it: magic, extensions, the
client short-term public key, 64 zero bytes, an 8-byte nonce tail, and the
80-byte box of 64 zero bytes toward the server long-term key. -/
def mkHello (ext1 ext2 cpk helloTail helloBox : List B) : List B :=
  helloMagic ++ ext1 ++ ext2 ++ cpk ++ List.replicate 64 (byte 0) ++ helloTail ++ helloBox

/-- The plaintext of the Initiate box: client long-term public key, vouch
nonce tail, the 48-byte Vouch box, the 256-byte domain, and the message. -/
def mkInitPlain (clpk vouchTail vouchBox dom msg : List B) : List B :=
  clpk ++ vouchTail ++ vouchBox ++ dom ++ msg

/-- An Initiate packet as a correct client builds it: magic, extensions,
client short-term public key, the echoed 16-byte minute nonce tail and
80-byte minute-sealed cookie, an 8-byte nonce tail, and the Initiate box. -/
def mkInitiate (ext1 ext2 cpk minuteTail sealedCookie initTail boxI : List B) : List B :=
  initiateMagic ++ ext1 ++ ext2 ++ cpk ++ minuteTail ++ sealedCookie ++ initTail ++ boxI

theorem orElse_some {α : Type} (x : α) (f : Unit → Option α) :
    (Option.some x).orElse f = some x := rfl

/-- The Hello packet a correct client sends for long-term seed `a` and
client short-term seed `c`. -/
def helloPkt (a c : Nat) (ext1 ext2 helloTail : List B) : List B :=
  mkHello ext1 ext2 (pkey c) helloTail
    (boxSeal (pkey a) (skey c) (helloNP ++ helloTail) (List.replicate 64 (byte 0)))

/-- The Initiate packet a correct client sends, echoing the minute-sealed
cookie (built under minute key `mk` with tail `minuteTail`, sealing the
pair (client short pk, server short sk)). -/
def initiatePkt (a c sv cl : Nat)
    (mk ext3 ext4 minuteTail initTail vouchTail dom msg : List B) : List B :=
  mkInitiate ext3 ext4 (pkey c) minuteTail
    (secretboxSeal mk (minuteNP ++ minuteTail) (pkey c ++ skey sv)) initTail
    (boxSeal (pkey sv) (skey c) (initiateNP ++ initTail)
      (mkInitPlain (pkey cl) vouchTail
        (boxSeal (pkey a) (skey cl) (vouchNP ++ vouchTail) (pkey c)) dom msg))

/-- `checkInitiate` accepts a correctly constructed Initiate echoing a
cookie sealed under the current minute key, opens the echoed cookie to the
pair (client short-term pk, server short-term sk), and extracts them. -/
theorem checkInitiate_initiatePkt
    (a c sv cl : Nat) (mk pmk ext3 ext4 minuteTail initTail vouchTail dom msg : List B)
    (he3 : ext3.length = 16) (he4 : ext4.length = 16)
    (hmt : minuteTail.length = 16) (hit : initTail.length = 8)
    (hvt : vouchTail.length = 16) (hdom : dom.length = 256)
    (hdomok : domainToString dom ≠ "") :
    (checkInitiate mk pmk (skey a)
        (initiatePkt a c sv cl mk ext3 ext4 minuteTail initTail vouchTail dom msg)).valid = true ∧
    (checkInitiate mk pmk (skey a)
        (initiatePkt a c sv cl mk ext3 ext4 minuteTail initTail vouchTail dom msg)).serverShortTermKey = skey sv ∧
    (checkInitiate mk pmk (skey a)
        (initiatePkt a c sv cl mk ext3 ext4 minuteTail initTail vouchTail dom msg)).domain = domainToString dom ∧
    secretboxOpen mk (minuteNP ++ minuteTail)
        (gslice (initiatePkt a c sv cl mk ext3 ext4 minuteTail initTail vouchTail dom msg) 88 168) =
      some (pkey c ++ skey sv) := by
  set vb := boxSeal (pkey a) (skey cl) (vouchNP ++ vouchTail) (pkey c) with hvb
  set pln := mkInitPlain (pkey cl) vouchTail vb dom msg with hpln
  set bi := boxSeal (pkey sv) (skey c) (initiateNP ++ initTail) pln with hbi
  set sc := secretboxSeal mk (minuteNP ++ minuteTail) (pkey c ++ skey sv) with hsc
  set ini := initiatePkt a c sv cl mk ext3 ext4 minuteTail initTail vouchTail dom msg with hini
  have hvbl : vb.length = 48 := by
    rw [hvb, boxSeal_length, pkey_length]
  have hplnl : pln.length = 352 + msg.length := by
    rw [hpln]
    simp only [mkInitPlain, List.length_append, pkey_length, hvbl, hvt, hdom]
  have hbil : bi.length = 368 + msg.length := by
    rw [hbi, boxSeal_length, hplnl]
    omega
  have hscl : sc.length = 80 := by
    rw [hsc, secretboxSeal_length]
    simp [pkey_length, skey_length]
  have hexp : ini = initiateMagic ++ (ext3 ++ (ext4 ++ (pkey c ++
      (minuteTail ++ (sc ++ (initTail ++ bi)))))) := by
    rw [hini, hsc, hbi, hpln, hvb]
    simp [initiatePkt, mkInitiate, List.append_assoc]
  have hlen : ini.length = 544 + msg.length := by
    rw [hexp]
    simp only [List.length_append, initiateMagic_length, he3, he4, pkey_length,
      hmt, hscl, hit, hbil]
    omega
  have h08 : gslice ini 0 8 = initiateMagic :=
    gslice_of_decomp ini [] initiateMagic
      (ext3 ++ (ext4 ++ (pkey c ++ (minuteTail ++ (sc ++ (initTail ++ bi)))))) 0 8
      (by rw [hexp]; simp) rfl rfl
  have h4072 : gslice ini 40 72 = pkey c :=
    gslice_of_decomp ini (initiateMagic ++ (ext3 ++ ext4)) (pkey c)
      (minuteTail ++ (sc ++ (initTail ++ bi))) 40 72
      (by rw [hexp]; simp [List.append_assoc])
      (by simp [List.length_append, initiateMagic_length, he3, he4])
      (by simp [pkey_length])
  have h7288 : gslice ini 72 88 = minuteTail :=
    gslice_of_decomp ini (initiateMagic ++ (ext3 ++ (ext4 ++ pkey c))) minuteTail
      (sc ++ (initTail ++ bi)) 72 88
      (by rw [hexp]; simp [List.append_assoc])
      (by simp [List.length_append, initiateMagic_length, he3, he4, pkey_length])
      (by simp [hmt])
  have h88168 : gslice ini 88 168 = sc :=
    gslice_of_decomp ini (initiateMagic ++ (ext3 ++ (ext4 ++ (pkey c ++ minuteTail)))) sc
      (initTail ++ bi) 88 168
      (by rw [hexp]; simp [List.append_assoc])
      (by simp [List.length_append, initiateMagic_length, he3, he4, pkey_length, hmt])
      (by rw [hscl])
  have h168176 : gslice ini 168 176 = initTail :=
    gslice_of_decomp ini
      (initiateMagic ++ (ext3 ++ (ext4 ++ (pkey c ++ (minuteTail ++ sc))))) initTail
      bi 168 176
      (by rw [hexp]; simp [List.append_assoc])
      (by simp [List.length_append, initiateMagic_length, he3, he4, pkey_length, hmt, hscl])
      (by rw [hit])
  have hdrop176 : ini.drop 176 = bi :=
    drop_of_decomp ini
      (initiateMagic ++ (ext3 ++ (ext4 ++ (pkey c ++ (minuteTail ++ (sc ++ initTail)))))) bi 176
      (by rw [hexp]; simp [List.append_assoc])
      (by simp [List.length_append, initiateMagic_length, he3, he4, pkey_length, hmt, hscl, hit])
  have hplnexp : pln = pkey cl ++ (vouchTail ++ (vb ++ (dom ++ msg))) := by
    rw [hpln]
    simp [mkInitPlain, List.append_assoc]
  have hp32 : pln.take 32 = pkey cl := by
    rw [hplnexp]
    exact List.take_left' (pkey_length cl)
  have hp3248 : gslice pln 32 48 = vouchTail :=
    gslice_of_decomp pln (pkey cl) vouchTail (vb ++ (dom ++ msg)) 32 48
      hplnexp (pkey_length cl) (by rw [hvt])
  have hp4896 : gslice pln 48 96 = vb :=
    gslice_of_decomp pln (pkey cl ++ vouchTail) vb (dom ++ msg) 48 96
      (by rw [hplnexp]; simp [List.append_assoc])
      (by simp [List.length_append, pkey_length, hvt])
      (by rw [hvbl])
  have hp96352 : gslice pln 96 352 = dom :=
    gslice_of_decomp pln (pkey cl ++ (vouchTail ++ vb)) dom msg 96 352
      (by rw [hplnexp]; simp [List.append_assoc])
      (by simp [List.length_append, pkey_length, hvt, hvbl])
      (by rw [hdom])
  have hguard1 : ¬(ini.length < 544 ∨ gslice ini 0 8 ≠ initiateMagic) := by
    intro hcontra
    rcases hcontra with h | h
    · rw [hlen] at h; omega
    · exact h h08
  have htake32 : (pkey c ++ skey sv).take 32 = pkey c := List.take_left' (pkey_length c)
  have hdrop32 : (pkey c ++ skey sv).drop 32 = skey sv := List.drop_left' (pkey_length c)
  have hopen1 : secretboxOpen mk (minuteNP ++ minuteTail) sc = some (pkey c ++ skey sv) := by
    rw [hsc]
    exact secretboxOpen_seal _ _ _
  have hopen2 : boxOpen (pkey c) (skey sv) (initiateNP ++ initTail) bi = some pln := by
    rw [hbi]
    exact boxOpen_seal c sv _ _
  have hopen3 : boxOpen (pkey cl) (skey a) (vouchNP ++ vouchTail) vb = some (pkey c) := by
    rw [hvb]
    exact boxOpen_seal cl a _ _
  unfold checkInitiate
  rw [if_neg hguard1]
  try dsimp only
  rw [h7288, h88168, hopen1, orElse_some]
  try dsimp only
  rw [h4072, htake32]
  rw [if_neg (by simp : ¬(pkey c ≠ pkey c))]
  try dsimp only
  rw [hdrop32, h168176, hdrop176, hopen2]
  try dsimp only
  rw [hp96352]
  rw [if_neg hdomok]
  try dsimp only
  rw [hp32, hp3248, hp4896, hopen3]
  try dsimp only
  rw [if_neg (by simp : ¬(pkey c ≠ pkey c))]
  exact ⟨rfl, rfl, rfl, rfl⟩

/-- The pump accepts the well-formed Hello, and its Cookie response is 200
bytes whose outer box the client opens to
`server short pk ++ minute nonce tail ++ minute-sealed cookie`. -/
theorem mkCookiePacket_helloPkt (a c sv : Nat)
    (mk ext1 ext2 helloTail minuteTail cookieTail : List B)
    (he1 : ext1.length = 16) (he2 : ext2.length = 16) (hht : helloTail.length = 8)
    (hmt : minuteTail.length = 16) (hct : cookieTail.length = 16) :
    checkHello true (skey a) (helloPkt a c ext1 ext2 helloTail) = true ∧
    (mkCookiePacket (skey a) mk (helloPkt a c ext1 ext2 helloTail) sv minuteTail
      cookieTail).length = 200 ∧
    boxOpen (pkey a) (skey c) (cookieNP ++ cookieTail)
        (gslice (mkCookiePacket (skey a) mk (helloPkt a c ext1 ext2 helloTail) sv
          minuteTail cookieTail) 56 200) =
      some (pkey sv ++ minuteTail ++
        secretboxSeal mk (minuteNP ++ minuteTail) (pkey c ++ skey sv)) := by
  set hb := boxSeal (pkey a) (skey c) (helloNP ++ helloTail) (List.replicate 64 (byte 0))
    with hhb
  set hp := helloPkt a c ext1 ext2 helloTail with hhp
  have hbl : hb.length = 80 := by rw [hhb, boxSeal_length]; simp
  have hexp : hp = helloMagic ++ (ext1 ++ (ext2 ++ (pkey c ++
      (List.replicate 64 (byte 0) ++ (helloTail ++ hb))))) := by
    rw [hhp, hhb]
    simp [helloPkt, mkHello, List.append_assoc]
  have hlenh : hp.length = 224 := by
    rw [hexp]
    simp only [List.length_append, helloMagic_length, he1, he2, pkey_length,
      List.length_replicate, hht, hbl]
  have h08 : gslice hp 0 8 = helloMagic :=
    gslice_of_decomp hp [] helloMagic
      (ext1 ++ (ext2 ++ (pkey c ++ (List.replicate 64 (byte 0) ++ (helloTail ++ hb))))) 0 8
      (by rw [hexp]; simp) rfl rfl
  have h0824 : gslice hp 8 24 = ext1 :=
    gslice_of_decomp hp helloMagic ext1
      (ext2 ++ (pkey c ++ (List.replicate 64 (byte 0) ++ (helloTail ++ hb)))) 8 24
      (by rw [hexp]) helloMagic_length (by rw [he1])
  have h2440 : gslice hp 24 40 = ext2 :=
    gslice_of_decomp hp (helloMagic ++ ext1) ext2
      (pkey c ++ (List.replicate 64 (byte 0) ++ (helloTail ++ hb))) 24 40
      (by rw [hexp]; simp [List.append_assoc])
      (by simp [List.length_append, helloMagic_length, he1])
      (by rw [he2])
  have h4072 : gslice hp 40 72 = pkey c :=
    gslice_of_decomp hp (helloMagic ++ (ext1 ++ ext2)) (pkey c)
      (List.replicate 64 (byte 0) ++ (helloTail ++ hb)) 40 72
      (by rw [hexp]; simp [List.append_assoc])
      (by simp [List.length_append, helloMagic_length, he1, he2])
      (by simp [pkey_length])
  have h136144 : gslice hp 136 144 = helloTail :=
    gslice_of_decomp hp
      (helloMagic ++ (ext1 ++ (ext2 ++ (pkey c ++ List.replicate 64 (byte 0))))) helloTail
      hb 136 144
      (by rw [hexp]; simp [List.append_assoc])
      (by simp [List.length_append, helloMagic_length, he1, he2, pkey_length])
      (by rw [hht])
  have h144224 : gslice hp 144 224 = hb :=
    gslice_of_decomp hp
      (helloMagic ++ (ext1 ++ (ext2 ++ (pkey c ++ (List.replicate 64 (byte 0) ++ helloTail)))))
      hb [] 144 224
      (by rw [hexp]; simp [List.append_assoc])
      (by simp [List.length_append, helloMagic_length, he1, he2, pkey_length, hht])
      (by rw [hbl])
  have hopenh : boxOpen (pkey c) (skey a) (helloNP ++ helloTail) hb =
      some (List.replicate 64 (byte 0)) := by
    rw [hhb]
    exact boxOpen_seal c a _ _
  have hchk : checkHello true (skey a) hp = true := by
    unfold checkHello
    rw [if_neg]
    · rw [h4072, h136144, h144224, hopenh]
      rfl
    · intro hcontra
      rcases hcontra with h | h | h
      · simp at h
      · rw [hlenh] at h; exact h rfl
      · exact h h08
  set sealed := secretboxSeal mk (minuteNP ++ minuteTail) (pkey c ++ skey sv) with hsealed
  have hsl : sealed.length = 80 := by
    rw [hsealed, secretboxSeal_length]
    simp [pkey_length, skey_length]
  set inner := pkey sv ++ minuteTail ++ sealed with hinner
  have hil : inner.length = 128 := by
    rw [hinner]
    simp only [List.length_append, pkey_length, hmt, hsl]
  set outer := boxSeal (pkey c) (skey a) (cookieNP ++ cookieTail) inner with houter
  have hol : outer.length = 144 := by rw [houter, boxSeal_length, hil]
  have hresp : mkCookiePacket (skey a) mk hp sv minuteTail cookieTail =
      cookieMagic ++ (ext2 ++ (ext1 ++ (cookieTail ++ outer))) := by
    rw [mkCookiePacket]
    rw [h4072, h2440, h0824]
    rw [houter, hinner, hsealed]
    simp [List.append_assoc]
  have hrl : (mkCookiePacket (skey a) mk hp sv minuteTail cookieTail).length = 200 := by
    rw [hresp]
    simp only [List.length_append, cookieMagic_length, he1, he2, hct, hol]
  have h56200 : gslice (mkCookiePacket (skey a) mk hp sv minuteTail cookieTail) 56 200 =
      outer :=
    gslice_of_decomp _ (cookieMagic ++ (ext2 ++ (ext1 ++ cookieTail))) outer [] 56 200
      (by rw [hresp]; simp [List.append_assoc])
      (by simp [List.length_append, cookieMagic_length, he1, he2, hct])
      (by rw [hol])
  refine ⟨hchk, hrl, ?_⟩
  rw [h56200, houter]
  exact boxOpen_seal a c _ _

/-- The cookie round-trip property (C1): the pump's Cookie for a valid
Hello seals exactly (client short pk, server short sk) under the minute
key; echoed at bytes `[72,168)` of a correctly constructed Initiate before
a rotation, it opens in `checkInitiate` and yields back the same pair. -/
def CookieRoundTrip (a c sv cl : Nat)
    (mk pmk ext1 ext2 ext3 ext4 helloTail minuteTail cookieTail initTail vouchTail dom msg :
      List B) : Prop :=
  checkHello true (skey a) (helloPkt a c ext1 ext2 helloTail) = true ∧
  (mkCookiePacket (skey a) mk (helloPkt a c ext1 ext2 helloTail) sv minuteTail
    cookieTail).length = 200 ∧
  boxOpen (pkey a) (skey c) (cookieNP ++ cookieTail)
      (gslice (mkCookiePacket (skey a) mk (helloPkt a c ext1 ext2 helloTail) sv
        minuteTail cookieTail) 56 200) =
    some (pkey sv ++ minuteTail ++
      secretboxSeal mk (minuteNP ++ minuteTail) (pkey c ++ skey sv)) ∧
  secretboxOpen mk (minuteNP ++ minuteTail)
      (gslice (initiatePkt a c sv cl mk ext3 ext4 minuteTail initTail vouchTail dom msg)
        88 168) =
    some (pkey c ++ skey sv) ∧
  (checkInitiate mk pmk (skey a)
    (initiatePkt a c sv cl mk ext3 ext4 minuteTail initTail vouchTail dom msg)).valid = true ∧
  (checkInitiate mk pmk (skey a)
      (initiatePkt a c sv cl mk ext3 ext4 minuteTail initTail vouchTail dom msg)).serverShortTermKey =
    skey sv

/-- C1: cookie round-trip, for every listener long-term seed, minute keys,
client short-term and long-term seeds, fresh server short-term seed,
nonce tails, extensions, valid domain and message. -/
theorem c1_cookie_roundtrip (a c sv cl : Nat)
    (mk pmk ext1 ext2 ext3 ext4 helloTail minuteTail cookieTail initTail vouchTail dom msg :
      List B)
    (he1 : ext1.length = 16) (he2 : ext2.length = 16)
    (he3 : ext3.length = 16) (he4 : ext4.length = 16)
    (hht : helloTail.length = 8) (hmt : minuteTail.length = 16)
    (hct : cookieTail.length = 16) (hit : initTail.length = 8)
    (hvt : vouchTail.length = 16) (hdom : dom.length = 256)
    (hdomok : domainToString dom ≠ "") :
    CookieRoundTrip a c sv cl mk pmk ext1 ext2 ext3 ext4 helloTail minuteTail cookieTail
      initTail vouchTail dom msg := by
  have hcook := mkCookiePacket_helloPkt a c sv mk ext1 ext2 helloTail minuteTail cookieTail
    he1 he2 hht hmt hct
  have hinit := checkInitiate_initiatePkt a c sv cl mk pmk ext3 ext4 minuteTail initTail
    vouchTail dom msg he3 he4 hmt hit hvt hdom hdomok
  exact ⟨hcook.1, hcook.2.1, hcook.2.2, hinit.2.2.2, hinit.1, hinit.2.1⟩

/-- A concrete valid 256-byte domain field: the label `example`, a zero
terminator and padding. -/
def domExample : List B := byte 7 :: (ascii ("example") ++ (byte 0 :: List.replicate 247 (byte 0)))

set_option maxRecDepth 100000 in
/-- C1 witness: the round trip at concrete seeds, keys, tails and domain. -/
theorem c1_cookie_roundtrip_witness :
    (domExample.length = 256 ∧ domainToString domExample ≠ "") ∧
    CookieRoundTrip 1 2 3 4 zeroKey (List.replicate 32 (byte 9))
      (List.replicate 16 (byte 0)) (List.replicate 16 (byte 0))
      (List.replicate 16 (byte 0)) (List.replicate 16 (byte 0))
      (List.replicate 8 (byte 0)) (List.replicate 16 (byte 0))
      (List.replicate 16 (byte 0)) (List.replicate 8 (byte 0))
      (List.replicate 16 (byte 0)) domExample [] :=
  ⟨⟨by decide, by decide⟩,
    c1_cookie_roundtrip 1 2 3 4 zeroKey (List.replicate 32 (byte 9))
      (List.replicate 16 (byte 0)) (List.replicate 16 (byte 0))
      (List.replicate 16 (byte 0)) (List.replicate 16 (byte 0))
      (List.replicate 8 (byte 0)) (List.replicate 16 (byte 0))
      (List.replicate 16 (byte 0)) (List.replicate 8 (byte 0))
      (List.replicate 16 (byte 0)) domExample []
      (by decide) (by decide) (by decide) (by decide) (by decide) (by decide)
      (by decide) (by decide) (by decide) (by decide) (by decide)⟩

theorem orElse_none {α : Type} (f : Unit → Option α) :
    (Option.none : Option α).orElse f = f () := rfl

theorem orElse_eq_some {α : Type} (o : Option α) (f : Unit → Option α) (x : α) :
    o.orElse f = some x ↔ (o = some x ∨ (o = none ∧ f () = some x)) := by
  cases o with
  | none => simp [orElse_none]
  | some y => simp [orElse_some]

/-- The acceptance condition of `checkInitiate` as stated by the claim:
length and magic; the cookie secretbox opens under the current minute key,
or failing that under the previous one; the cookie binds the asserted
client short-term key; the Initiate box opens under the keys derived from
the cookie; the domain is valid; and the Vouch opens and endorses the
asserted client short-term key. -/
def InitiateAccepts (minuteKey prevMinuteKey longTermSecretKey pb : List B) : Prop :=
  544 ≤ pb.length ∧ gslice pb 0 8 = initiateMagic ∧
  ∃ cookie,
    (secretboxOpen minuteKey (minuteNP ++ gslice pb 72 88) (gslice pb 88 168) = some cookie ∨
      (secretboxOpen minuteKey (minuteNP ++ gslice pb 72 88) (gslice pb 88 168) = none ∧
        secretboxOpen prevMinuteKey (minuteNP ++ gslice pb 72 88) (gslice pb 88 168) =
          some cookie)) ∧
    cookie.take 32 = gslice pb 40 72 ∧
    ∃ pt,
      boxOpen (gslice pb 40 72) (cookie.drop 32) (initiateNP ++ gslice pb 168 176)
        (pb.drop 176) = some pt ∧
      domainToString (gslice pt 96 352) ≠ "" ∧
      ∃ vouch,
        boxOpen (pt.take 32) longTermSecretKey (vouchNP ++ gslice pt 32 48)
          (gslice pt 48 96) = some vouch ∧
        vouch = gslice pb 40 72

/-- Every run of `checkInitiate` either rejects, or satisfies the full
acceptance condition and returns exactly the extracted server short-term
key, the parsed domain and the in-place-rewritten buffer. -/
theorem checkInitiate_success_shape (minuteKey prevMinuteKey longTermSecretKey pb : List B) :
    (checkInitiate minuteKey prevMinuteKey longTermSecretKey pb).valid = false ∨
    (InitiateAccepts minuteKey prevMinuteKey longTermSecretKey pb ∧
      ∃ cookie pt,
        (secretboxOpen minuteKey (minuteNP ++ gslice pb 72 88) (gslice pb 88 168)).orElse
          (fun _ => secretboxOpen prevMinuteKey (minuteNP ++ gslice pb 72 88)
            (gslice pb 88 168)) = some cookie ∧
        boxOpen (gslice pb 40 72) (cookie.drop 32) (initiateNP ++ gslice pb 168 176)
          (pb.drop 176) = some pt ∧
        checkInitiate minuteKey prevMinuteKey longTermSecretKey pb =
          ⟨cookie.drop 32, domainToString (gslice pt 96 352), true,
            setRange (setRange pb 176 pt) (pb.length - 16)
              (List.replicate 16 (byte 0))⟩) := by
  unfold checkInitiate
  split
  · left; rfl
  · rename_i hguard
    try dsimp only
    split
    · left; rfl
    · rename_i cookie hcookie
      split
      · left; rfl
      · rename_i hck
        try dsimp only
        split
        · left; rfl
        · rename_i pt hpt
          try dsimp only
          split
          · left; rfl
          · rename_i hdomne
            try dsimp only
            split
            · left; rfl
            · rename_i vouch hvouch
              split
              · left; rfl
              · rename_i hveq
                right
                push_neg at hguard hck hveq
                refine ⟨⟨hguard.1, hguard.2, cookie, ?_, hck, pt, hpt, hdomne, vouch,
                  hvouch, hveq⟩, cookie, pt, hcookie, hpt, rfl⟩
                exact (orElse_eq_some _ _ _).mp hcookie

/-- Driving `checkInitiate` through its checks: the acceptance condition
is also sufficient. -/
theorem checkInitiate_accepts_valid (minuteKey prevMinuteKey longTermSecretKey pb : List B)
    (h : InitiateAccepts minuteKey prevMinuteKey longTermSecretKey pb) :
    (checkInitiate minuteKey prevMinuteKey longTermSecretKey pb).valid = true := by
  obtain ⟨h5, hmagic, cookie, hor, hck, pt, hbox, hdomne, vouch, hv, hveq⟩ := h
  have horelse : (secretboxOpen minuteKey (minuteNP ++ gslice pb 72 88)
      (gslice pb 88 168)).orElse
        (fun _ => secretboxOpen prevMinuteKey (minuteNP ++ gslice pb 72 88)
          (gslice pb 88 168)) = some cookie := (orElse_eq_some _ _ _).mpr hor
  unfold checkInitiate
  rw [if_neg (by
    intro hc
    rcases hc with hc | hc
    · omega
    · exact hc hmagic)]
  try dsimp only
  rw [horelse]
  try dsimp only
  rw [if_neg (by rw [hck]; simp)]
  try dsimp only
  rw [hbox]
  try dsimp only
  rw [if_neg hdomne]
  try dsimp only
  rw [hv]
  try dsimp only
  rw [if_neg (by simp [hveq])]

/-- C2: `checkInitiate` accepts a datagram exactly under the claim's
conditions, and a datagram that is neither a valid Hello nor a valid
Initiate produces no response, no forwarding, no new connection and no
change to the connection table. -/
theorem c2_initiate_validation (minuteKey prevMinuteKey longTermSecretKey : List B)
    (listen : Bool) (conns : List (List B)) (pb : List B)
    (sSeed : Nat) (minuteTail cookieTail : List B) :
    ((checkInitiate minuteKey prevMinuteKey longTermSecretKey pb).valid = true ↔
      InitiateAccepts minuteKey prevMinuteKey longTermSecretKey pb) ∧
    (checkHello listen longTermSecretKey pb = false →
      (checkInitiate minuteKey prevMinuteKey longTermSecretKey pb).valid = false →
      pumpDatagram listen longTermSecretKey minuteKey prevMinuteKey conns pb sSeed
        minuteTail cookieTail = ⟨none, none, false, conns⟩) := by
  constructor
  · constructor
    · intro hv
      rcases checkInitiate_success_shape minuteKey prevMinuteKey longTermSecretKey pb with
        hf | ⟨hacc, -⟩
      · rw [hv] at hf; cases hf
      · exact hacc
    · exact checkInitiate_accepts_valid minuteKey prevMinuteKey longTermSecretKey pb
  · intro hh hv
    unfold pumpDatagram
    rw [if_neg (by simp [hh])]
    simp [hv]

/-- C2 witness: the empty datagram is not a Hello, is rejected by
`checkInitiate` (its acceptance condition fails), and leaves the pump
inert. -/
theorem c2_initiate_validation_witness :
    ((checkInitiate zeroKey zeroKey zeroKey []).valid = true ↔
      InitiateAccepts zeroKey zeroKey zeroKey []) ∧
    (checkHello true zeroKey [] = false →
      (checkInitiate zeroKey zeroKey zeroKey []).valid = false →
      pumpDatagram true zeroKey zeroKey zeroKey [[byte 1]] [] 3
        (List.replicate 16 (byte 0)) (List.replicate 16 (byte 0)) =
        ⟨none, none, false, [[byte 1]]⟩) :=
  c2_initiate_validation zeroKey zeroKey zeroKey true [[byte 1]] [] 3
    (List.replicate 16 (byte 0)) (List.replicate 16 (byte 0))

/-- The two in-place `copy`/zero steps of a successful `checkInitiate`,
written as plain concatenation: header, plaintext, 16 zero bytes. -/
theorem setRange_success (pb pt : List B) (h5 : 544 ≤ pb.length)
    (hlen : pt.length = pb.length - 192) :
    setRange (setRange pb 176 pt) (pb.length - 16) (List.replicate 16 (byte 0)) =
      pb.take 176 ++ pt ++ List.replicate 16 (byte 0) := by
  have hb1 : setRange pb 176 pt = (pb.take 176 ++ pt) ++ pb.drop (pb.length - 16) := by
    rw [setRange]
    have hn : min pt.length (pb.length - 176) = pt.length := by omega
    rw [hn, List.take_length]
    have harith : 176 + pt.length = pb.length - 16 := by omega
    rw [harith, List.append_assoc]
  have hab : (pb.take 176 ++ pt).length = pb.length - 16 := by
    simp only [List.length_append, List.length_take]
    omega
  have hX : ((pb.take 176 ++ pt) ++ pb.drop (pb.length - 16)).length = pb.length := by
    simp only [List.length_append, List.length_take, List.length_drop]
    omega
  rw [hb1, setRange]
  have hn2 : min (List.replicate 16 (byte 0)).length
      (((pb.take 176 ++ pt) ++ pb.drop (pb.length - 16)).length - (pb.length - 16)) = 16 := by
    rw [hX]
    simp only [List.length_replicate]
    omega
  rw [hn2]
  rw [List.take_left' hab]
  have htk : (List.replicate 16 (byte 0)).take 16 = List.replicate 16 (byte 0) := by
    simp
  rw [htk]
  have hdr : ((pb.take 176 ++ pt) ++ pb.drop (pb.length - 16)).drop (pb.length - 16 + 16) =
      [] := by
    apply List.drop_eq_nil_of_le
    rw [hX]
    omega
  rw [hdr, List.append_nil, List.append_assoc]

/-- C4: when `checkInitiate` succeeds, bytes `[176, |pb|-16)` of the
returned buffer are the plaintext of the Initiate box, the trailing 16
bytes are zeroed, and the 176-byte header is unchanged. -/
theorem c4_in_place_plaintext (minuteKey prevMinuteKey longTermSecretKey pb : List B)
    (h : (checkInitiate minuteKey prevMinuteKey longTermSecretKey pb).valid = true) :
    ∃ pt,
      boxOpen (gslice pb 40 72)
        ((checkInitiate minuteKey prevMinuteKey longTermSecretKey pb).serverShortTermKey)
        (initiateNP ++ gslice pb 168 176) (pb.drop 176) = some pt ∧
      (checkInitiate minuteKey prevMinuteKey longTermSecretKey pb).buf =
        pb.take 176 ++ pt ++ List.replicate 16 (byte 0) ∧
      (checkInitiate minuteKey prevMinuteKey longTermSecretKey pb).buf.length = pb.length ∧
      gslice ((checkInitiate minuteKey prevMinuteKey longTermSecretKey pb).buf) 0 176 =
        gslice pb 0 176 ∧
      pt.length = pb.length - 192 := by
  rcases checkInitiate_success_shape minuteKey prevMinuteKey longTermSecretKey pb with
    hf | ⟨hacc, cookie, pt, hor, hbox, heq⟩
  · rw [h] at hf; cases hf
  · have h5 : 544 ≤ pb.length := hacc.1
    have hptlen : pt.length = pb.length - 192 := by
      obtain ⟨hc, -⟩ := secretboxOpen_eq_some hbox
      have := congrArg List.length hc
      rw [secretboxSeal_length, List.length_drop] at this
      omega
    refine ⟨pt, ?_, ?_, ?_, ?_, hptlen⟩
    · rw [heq]
      exact hbox
    · rw [heq]
      exact setRange_success pb pt h5 hptlen
    · rw [heq]
      have := setRange_success pb pt h5 hptlen
      rw [this]
      simp only [List.length_append, List.length_take, List.length_replicate]
      omega
    · rw [heq]
      have hbuf := setRange_success pb pt h5 hptlen
      have h176 : (pb.take 176).length = 176 := by
        rw [List.length_take]
        omega
      have hgl : gslice (pb.take 176 ++ (pt ++ List.replicate 16 (byte 0))) 0 176 =
          pb.take 176 :=
        gslice_of_decomp _ [] (pb.take 176) (pt ++ List.replicate 16 (byte 0)) 0 176
          (by simp) rfl (by rw [h176])
      have hgr : gslice pb 0 176 = pb.take 176 := by
        rw [gslice, List.drop_zero, Nat.sub_zero]
      show gslice (setRange (setRange pb 176 pt) (pb.length - 16)
        (List.replicate 16 (byte 0))) 0 176 = gslice pb 0 176
      rw [hbuf, List.append_assoc, hgl, hgr]

/-- A concrete well-formed Initiate (seeds 1,2,3,4; zero minute key; zero
tails; the `example` domain; empty message). -/
def iniW : List B :=
  initiatePkt 1 2 3 4 zeroKey (List.replicate 16 (byte 0)) (List.replicate 16 (byte 0))
    (List.replicate 16 (byte 0)) (List.replicate 8 (byte 0)) (List.replicate 16 (byte 0))
    domExample []

set_option maxRecDepth 100000 in
/-- C4 witness: the in-place rewrite at the concrete valid Initiate. -/
theorem c4_in_place_plaintext_witness :
    (checkInitiate zeroKey (List.replicate 32 (byte 9)) (skey 1) iniW).valid = true ∧
    (∃ pt,
      boxOpen (gslice iniW 40 72)
        ((checkInitiate zeroKey (List.replicate 32 (byte 9)) (skey 1) iniW).serverShortTermKey)
        (initiateNP ++ gslice iniW 168 176) (iniW.drop 176) = some pt ∧
      (checkInitiate zeroKey (List.replicate 32 (byte 9)) (skey 1) iniW).buf =
        iniW.take 176 ++ pt ++ List.replicate 16 (byte 0) ∧
      (checkInitiate zeroKey (List.replicate 32 (byte 9)) (skey 1) iniW).buf.length =
        iniW.length ∧
      gslice ((checkInitiate zeroKey (List.replicate 32 (byte 9)) (skey 1) iniW).buf) 0 176 =
        gslice iniW 0 176 ∧
      pt.length = iniW.length - 192) :=
  ⟨by decide, c4_in_place_plaintext zeroKey (List.replicate 32 (byte 9)) (skey 1) iniW
    (by decide)⟩

theorem gslice_length (l : List B) (i j : Nat) :
    (gslice l i j).length = min (j - i) (l.length - i) := by
  simp [gslice]

/-- `checkHello` holds exactly when the listener accepts, the datagram is
224 bytes with the Hello magic, and the box at `[144,224)` opens; the
padding bytes `[72,136)` are never examined. -/
theorem checkHello_iff (listen : Bool) (longTermSecretKey pb : List B) :
    checkHello listen longTermSecretKey pb = true ↔
      (listen = true ∧ pb.length = 224 ∧ gslice pb 0 8 = helloMagic ∧
        (boxOpen (gslice pb 40 72) longTermSecretKey (helloNP ++ gslice pb 136 144)
          (gslice pb 144 224)).isSome = true) := by
  by_cases h : ¬listen = true ∨ pb.length ≠ 224 ∨ gslice pb 0 8 ≠ helloMagic
  · rw [checkHello, if_pos h]
    constructor
    · intro hfalse
      cases hfalse
    · intro hcontra
      obtain ⟨h1, h2, h3, -⟩ := hcontra
      exfalso
      rcases h with h | h | h
      · exact h h1
      · exact h h2
      · exact h h3
  · rw [checkHello, if_neg h]
    push_neg at h
    constructor
    · intro hbox
      exact ⟨h.1, h.2.1, h.2.2, hbox⟩
    · intro hcontra
      exact hcontra.2.2.2

/-- Any Cookie response built by the pump for a 224-byte datagram is
exactly 200 bytes. -/
theorem mkCookiePacket_length (longTermSecretKey minuteKey pb : List B)
    (sSeed : Nat) (minuteTail cookieTail : List B)
    (hpb : pb.length = 224) (hmt : minuteTail.length = 16) (hct : cookieTail.length = 16) :
    (mkCookiePacket longTermSecretKey minuteKey pb sSeed minuteTail cookieTail).length =
      200 := by
  rw [mkCookiePacket]
  simp only [List.length_append, cookieMagic_length, gslice_length, boxSeal_length,
    secretboxSeal_length, pkey_length, skey_length, hpb, hmt, hct]
  omega

/-- C3 counterexample packet: a 224-byte Hello whose padding byte at
offset 72 is 7 (not zero) but whose box is valid. -/
def helloCex : List B :=
  helloMagic ++ List.replicate 16 (byte 0) ++ List.replicate 16 (byte 0) ++ pkey 10 ++
    (byte 7 :: List.replicate 63 (byte 0)) ++ List.replicate 8 (byte 0) ++
    boxSeal (pkey 0) (skey 10) (helloNP ++ List.replicate 8 (byte 0))
      (List.replicate 64 (byte 0))

set_option maxRecDepth 100000 in
/-- C3 counterexample: the pump answers `helloCex` with a Cookie although
bytes `[72,136)` are not all zero — the zero-padding condition of the
claim is not checked by the code. -/
theorem c3_cookie_response_counterexample :
    gslice helloCex 72 73 = [byte 7] ∧ byte 7 ≠ byte 0 ∧
    (pumpDatagram true (skey 0) zeroKey zeroKey [] helloCex 3
      (List.replicate 16 (byte 0)) (List.replicate 16 (byte 0))).resp ≠ none := by
  refine ⟨by decide, by decide, ?_⟩
  decide

/-- C3 (amended): the listener answers a datagram with a 200-byte Cookie
response if and only if it is still accepting and the datagram is exactly
224 bytes, begins with the Hello magic, and the 80-byte box at `[144,224)`
opens under the server long-term secret key and the client short-term
public key at `[40,72)` with nonce `"CurveCP-client-H" ++ pb[136:144]`;
the padding bytes `[72,136)` are not examined. In every other case the
datagram produces no Cookie. -/
theorem c3_cookie_response_amended (listen : Bool)
    (longTermSecretKey minuteKey prevMinuteKey : List B) (conns : List (List B))
    (pb : List B) (sSeed : Nat) (minuteTail cookieTail : List B)
    (hmt : minuteTail.length = 16) (hct : cookieTail.length = 16) :
    ((pumpDatagram listen longTermSecretKey minuteKey prevMinuteKey conns pb sSeed
        minuteTail cookieTail).resp ≠ none ↔
      (listen = true ∧ pb.length = 224 ∧ gslice pb 0 8 = helloMagic ∧
        (boxOpen (gslice pb 40 72) longTermSecretKey (helloNP ++ gslice pb 136 144)
          (gslice pb 144 224)).isSome = true)) ∧
    (∀ respPkt,
      (pumpDatagram listen longTermSecretKey minuteKey prevMinuteKey conns pb sSeed
        minuteTail cookieTail).resp = some respPkt → respPkt.length = 200) := by
  by_cases hch : checkHello listen longTermSecretKey pb = true
  · have hiff := (checkHello_iff listen longTermSecretKey pb).mp hch
    constructor
    · rw [pumpDatagram, if_pos hch]
      constructor
      · intro _
        exact hiff
      · intro _
        exact Option.some_ne_none _
    · intro respPkt hresp
      rw [pumpDatagram, if_pos hch] at hresp
      simp only [Option.some.injEq] at hresp
      rw [← hresp]
      exact mkCookiePacket_length longTermSecretKey minuteKey pb sSeed minuteTail
        cookieTail hiff.2.1 hmt hct
  · have hnone : (pumpDatagram listen longTermSecretKey minuteKey prevMinuteKey conns pb
        sSeed minuteTail cookieTail).resp = none := by
      rw [pumpDatagram, if_neg hch]
      dsimp only
      repeat' first | rfl | split
    constructor
    · rw [hnone]
      simp only [ne_eq, not_true_eq_false, false_iff]
      intro hcontra
      exact hch ((checkHello_iff listen longTermSecretKey pb).mpr hcontra)
    · intro respPkt hresp
      rw [hnone] at hresp
      cases hresp

/-- C3 amended witness: the valid Hello of the C1 development elicits a
Cookie; the response predicate and the 200-byte bound instantiate. -/
theorem c3_cookie_response_amended_witness :
    (List.replicate 16 (byte 0) : List B).length = 16 ∧
    (((pumpDatagram true (skey 1) zeroKey zeroKey []
        (helloPkt 1 2 (List.replicate 16 (byte 0)) (List.replicate 16 (byte 0))
          (List.replicate 8 (byte 0))) 3
        (List.replicate 16 (byte 0)) (List.replicate 16 (byte 0))).resp ≠ none ↔
      (true = true ∧
        (helloPkt 1 2 (List.replicate 16 (byte 0)) (List.replicate 16 (byte 0))
          (List.replicate 8 (byte 0))).length = 224 ∧
        gslice (helloPkt 1 2 (List.replicate 16 (byte 0)) (List.replicate 16 (byte 0))
          (List.replicate 8 (byte 0))) 0 8 = helloMagic ∧
        (boxOpen (gslice (helloPkt 1 2 (List.replicate 16 (byte 0))
            (List.replicate 16 (byte 0)) (List.replicate 8 (byte 0))) 40 72) (skey 1)
          (helloNP ++ gslice (helloPkt 1 2 (List.replicate 16 (byte 0))
            (List.replicate 16 (byte 0)) (List.replicate 8 (byte 0))) 136 144)
          (gslice (helloPkt 1 2 (List.replicate 16 (byte 0)) (List.replicate 16 (byte 0))
            (List.replicate 8 (byte 0))) 144 224)).isSome = true)) ∧
    (∀ respPkt,
      (pumpDatagram true (skey 1) zeroKey zeroKey []
        (helloPkt 1 2 (List.replicate 16 (byte 0)) (List.replicate 16 (byte 0))
          (List.replicate 8 (byte 0))) 3
        (List.replicate 16 (byte 0)) (List.replicate 16 (byte 0))).resp = some respPkt →
      respPkt.length = 200)) :=
  ⟨by decide,
    c3_cookie_response_amended true (skey 1) zeroKey zeroKey []
      (helloPkt 1 2 (List.replicate 16 (byte 0)) (List.replicate 16 (byte 0))
        (List.replicate 8 (byte 0))) 3
      (List.replicate 16 (byte 0)) (List.replicate 16 (byte 0)) (by decide) (by decide)⟩
